import Mathlib

/-!
# vault-plugin-secrets-jenkins: credential lifecycle

A shallow embedding of the Jenkins secrets backend: the user and token
lifecycle (`plugin/path_users.go`, `plugin/jenkins_user.go`,
`plugin/path_tokens.go`, `plugin/jenkins_token.go`), the configuration
(`plugin/path_config.go`) and the cached client (`plugin/backend.go`,
`plugin/client.go`).

The backend is run sequentially: a handler is a function from the state before
the call to its outcome and the state after it.  The state holds the host
storage, the cached client of the backend and a trace of every storage access
and downstream call.  The host storage and the Jenkins server are external:
their answers are given by an environment `Env`.
-/

namespace JenkinsSecrets

/-! ## Go values -/

/-- Go `error` values, identified by their message. -/
abbrev Error := String

deriving instance DecidableEq for Except

/-- The constant `time.Second`, in nanoseconds. -/
def Second : Int := 1000000000

/-- Wrap-around of an integer into the range of Go `int64`. -/
def int64 (x : Int) : Int := (x + 2 ^ 63) % 2 ^ 64 - 2 ^ 63

/-- Product of two `time.Duration` values (`int64` multiplication). -/
def durationMul (a b : Int) : Int := int64 (a * b)

/-- Values of Go `interface{}` found in response data and internal data.  A
`float64` is given by its value, a rational number: internal data reach the
backend through JSON, which has neither NaN nor infinities. -/
inductive Value where
  | str (s : String)
  | float64 (f : ℚ)
  | duration (d : Int)
  | int (n : Int)
  | bool (b : Bool)
  | null
  deriving DecidableEq

/-- Go `map[string]interface{}`, as an association list. -/
abbrev Map := List (String × Value)

/-- JSON scalars as stored in a storage entry; a number is given by its
value. -/
inductive JSON where
  | str (s : String)
  | num (q : ℚ)
  | bool (b : Bool)
  | null
  deriving DecidableEq

/-- A JSON object; fields are looked up by key. -/
abbrev JSONObject := List (String × JSON)

/-- Encoding of one value by `encoding/json`: a duration is its count of
nanoseconds. -/
def Value.toJSON : Value → JSON
  | .str s => .str s
  | .float64 f => .num f
  | .duration d => .num d
  | .int n => .num n
  | .bool b => .bool b
  | .null => .null

/-- Go `strings.TrimPrefix`. -/
def TrimPrefix (s p : String) : String :=
  if p.data.isPrefixOf s.data then String.mk (s.data.drop p.data.length) else s

/-! ## Configuration and client (`path_config.go`, `client.go`) -/

def configPrefix : String := "config"

def usersPrefix : String := "users"

def tokensPrefix : String := "tokens"

/-- The Go struct `jenkinsConfig`. -/
structure jenkinsConfig where
  Username : String
  Password : String
  URL : String
  ValidateClient : Bool
  deriving DecidableEq

/-- The Go struct `jenkinsClient`: the handle built by `gojenkins.CreateJenkins`
from the URL, username and password. -/
structure jenkinsClient where
  URL : String
  Username : String
  Password : String
  deriving DecidableEq

/-- The user record returned by the downstream `CreateUser`. -/
structure gojenkinsUser where
  UserName : String
  FullName : String
  Email : String
  deriving DecidableEq

/-- The token record returned by the downstream `GenerateAPIToken`. -/
structure APIToken where
  Value : String
  UUID : String
  deriving DecidableEq

/-! ## State, trace and environment -/

/-- One external effect of the backend. -/
inductive Event where
  | storageGet (key : String)
  | storagePut (key : String)
  | storageDelete (key : String)
  | storageList (dir : String)
  | CreateJenkins (url username password : String)
  | Init (c : jenkinsClient)
  | CreateUser (c : jenkinsClient) (username password fullname email : String)
  | DeleteUser (c : jenkinsClient) (username : String)
  | GenerateAPIToken (c : jenkinsClient) (tokenName : String)
  | RevokeAPIToken (c : jenkinsClient) (tokenID : String)
  deriving DecidableEq

/-- Whether an event is a call to the Jenkins server. -/
def Event.isDownstream : Event → Bool
  | .Init _ => true
  | .CreateUser _ _ _ _ _ => true
  | .DeleteUser _ _ => true
  | .GenerateAPIToken _ _ => true
  | .RevokeAPIToken _ _ => true
  | _ => false

/-- Whether an event changes the storage. -/
def Event.isStorageWrite : Event → Bool
  | .storagePut _ => true
  | .storageDelete _ => true
  | _ => false

/-- The content of `logical.Storage`: keys with their JSON entries. -/
abbrev Storage := List (String × JSONObject)

/-- The backend (`jenkinsBackend.client`), the storage of the request and the
trace of external effects. -/
structure State where
  storage : Storage
  client : Option jenkinsClient
  log : List Event
  deriving DecidableEq

/-- The lease options of `logical.Secret`. -/
structure LeaseOptions where
  TTL : Int
  MaxTTL : Int
  Renewable : Bool
  Increment : Int
  IssueTime : Int
  deriving DecidableEq

/-- The Go struct `logical.Secret`. -/
structure Secret extends LeaseOptions where
  InternalData : Map
  LeaseID : String
  deriving DecidableEq

/-- The Go struct `logical.Response`. -/
structure Response where
  Secret : Option Secret
  Data : Map
  deriving DecidableEq

/-- What the host and the Jenkins server answer.  A storage operation fails
when its field gives an error; the downstream capabilities are the four of the
Jenkins client plus `Init`.  The answers are fixed for the length of a run: an
operation repeated with the same arguments gets the same answer.
`defaultLease` is the lease that
`framework.Secret.Response` puts on a fresh response, and `outOfRange` is
the result, left to the platform by the language, of converting to `int64` a
float whose integral part is outside the `int64` range. -/
structure Env where
  getErr : String → Option Error
  putErr : String → Option Error
  deleteErr : String → Option Error
  Init : jenkinsClient → Option Error
  CreateUser : jenkinsClient → String → String → String → String → Except Error gojenkinsUser
  DeleteUser : jenkinsClient → String → Option Error
  GenerateAPIToken : jenkinsClient → String → Except Error APIToken
  RevokeAPIToken : jenkinsClient → String → Option Error
  defaultLease : LeaseOptions
  outOfRange : ℚ → Int

/-- How a handler ends: it returns the pair `(*logical.Response, error)` or
aborts with a run-time panic. -/
inductive Outcome where
  | returned (resp : Option Response) (err : Option Error)
  | panicked (msg : String)
  deriving DecidableEq

/-- Append an event to the trace. -/
def State.record (w : State) (e : Event) : State :=
  { w with log := w.log ++ [e] }

/-- The calls to the Jenkins server in the trace. -/
def State.downstream (w : State) : List Event :=
  w.log.filter Event.isDownstream

/-- The storage writes in the trace. -/
def State.writes (w : State) : List Event :=
  w.log.filter Event.isStorageWrite

/-! ## Storage (`logical.Storage`) -/

/-- The call `Storage.Get`. -/
def storageGet (env : Env) (w : State) (key : String) :
    Except Error (Option JSONObject) × State :=
  match env.getErr key with
  | some e => (.error e, w.record (.storageGet key))
  | none => (.ok (w.storage.lookup key), w.record (.storageGet key))

/-- The call `Storage.Put`. -/
def storagePut (env : Env) (w : State) (key : String) (v : JSONObject) :
    Option Error × State :=
  match env.putErr key with
  | some e => (some e, w.record (.storagePut key))
  | none =>
    (none, { (w.record (.storagePut key)) with
      storage := (key, v) :: w.storage.filter (fun kv => kv.1 != key) })

/-- The call `Storage.Delete`; deleting an absent key succeeds. -/
def storageDelete (env : Env) (w : State) (key : String) : Option Error × State :=
  match env.deleteErr key with
  | some e => (some e, w.record (.storageDelete key))
  | none =>
    (none, { (w.record (.storageDelete key)) with
      storage := w.storage.filter (fun kv => kv.1 != key) })

/-- The function `logical.StorageEntryJSON` applied to a map. -/
def StorageEntryJSON (key : String) (m : Map) : Except Error (String × JSONObject) :=
  .ok (key, m.map (fun kv => (kv.1, kv.2.toJSON)))

/-- Decoding of a JSON field into a Go `string` field. -/
def decodeString (obj : JSONObject) (key : String) : Except Error String :=
  match obj.lookup key with
  | none => .ok ""
  | some .null => .ok ""
  | some (.str s) => .ok s
  | some _ => .error ("json: cannot unmarshal " ++ key ++ " into Go value of type string")

/-- Decoding of a JSON field into a Go `bool` field. -/
def decodeBool (obj : JSONObject) (key : String) : Except Error Bool :=
  match obj.lookup key with
  | none => .ok false
  | some .null => .ok false
  | some (.bool b) => .ok b
  | some _ => .error ("json: cannot unmarshal " ++ key ++ " into Go value of type bool")

/-- Decoding of a JSON field into a `time.Duration` field: a whole number in
the `int64` range. -/
def decodeDuration (obj : JSONObject) (key : String) : Except Error Int :=
  match obj.lookup key with
  | none => .ok 0
  | some .null => .ok 0
  | some (.num q) =>
    if q.den = 1 ∧ -(2 ^ 63) ≤ q.num ∧ q.num < 2 ^ 63 then .ok q.num
    else .error ("json: cannot unmarshal " ++ key ++ " into Go value of type time.Duration")
  | some _ => .error ("json: cannot unmarshal " ++ key ++ " into Go value of type time.Duration")

/-- Decoding of a storage entry into `jenkinsConfig` (`entry.DecodeJSON`). -/
def decodeConfig (obj : JSONObject) : Except Error jenkinsConfig :=
  match decodeString obj "username", decodeString obj "password",
      decodeString obj "url", decodeBool obj "validate" with
  | .ok u, .ok p, .ok url, .ok v =>
    .ok { Username := u, Password := p, URL := url, ValidateClient := v }
  | .error e, _, _, _ => .error e
  | _, .error e, _, _ => .error e
  | _, _, .error e, _ => .error e
  | _, _, _, .error e => .error e

/-- The function `getConfig` of `path_config.go`. -/
def getConfig (env : Env) (w : State) : Except Error (Option jenkinsConfig) × State :=
  match storageGet env w configPrefix with
  | (.error e, w1) => (.error e, w1)
  | (.ok none, w1) => (.ok none, w1)
  | (.ok (some entry), w1) =>
    match decodeConfig entry with
    | .error e => (.error ("error reading root configuration: " ++ e), w1)
    | .ok config => (.ok (some config), w1)

/-- The function `newClient` of `client.go`, given a non-nil configuration. -/
def newClient (config : jenkinsConfig) : Except Error jenkinsClient :=
  if config.Username = "" then
    .error "jenkins username was not defined in /config"
  else if config.Password = "" then
    .error "jenkins password was not defined in /config"
  else if config.URL = "" then
    .error "jenkins URL was not defined in /config"
  else
    .ok { URL := config.URL, Username := config.Username, Password := config.Password }

/-- The method `getClient` of `backend.go`, run without concurrent callers: the
cached client if there is one, else a client built from the stored
configuration (the zero configuration when none is stored) and cached. -/
def getClient (env : Env) (w : State) : Except Error jenkinsClient × State :=
  match w.client with
  | some c => (.ok c, w)
  | none =>
    match getConfig env w with
    | (.error e, w1) => (.error e, w1)
    | (.ok cfg, w1) =>
      let config := cfg.getD { Username := "", Password := "", URL := "", ValidateClient := false }
      match newClient config with
      | .error e => (.error e, { w1 with client := none })
      | .ok c =>
        (.ok c, { (w1.record (.CreateJenkins config.URL config.Username config.Password)) with
          client := some c })

/-! ## Requests and responses (`logical.Request`, `logical.Response`) -/

/-- The request operations of the host. -/
inductive Operation where
  | CreateOperation
  | UpdateOperation
  | ReadOperation
  | DeleteOperation
  | ListOperation
  | RevokeOperation
  | RenewOperation
  deriving DecidableEq

/-- The Go struct `logical.Request`.  Its storage is the one of the state, and
its field data are passed to the handler beside it. -/
structure Request where
  Operation : Operation
  Path : String
  Secret : Option Secret

/-- The function `logical.ErrorResponse`. -/
def ErrorResponse (text : String) : Response :=
  { Secret := none, Data := [("error", .str text)] }

/-- The method `Response.IsError`. -/
def Response.IsError (r : Response) : Bool :=
  r.Data.length == 1 && (r.Data.lookup "error").isSome

/-- The method `framework.Secret.Response`: a response with the data, and a
secret that carries the lease of a fresh response and a copy of the internal
data extended with the type of the secret. -/
def SecretResponse (env : Env) (secretType : String) (data internal : Map) : Response :=
  { Secret := some
      { toLeaseOptions := env.defaultLease,
        InternalData := internal ++ [("secret_type", .str secretType)],
        LeaseID := "" },
    Data := data }

/-! ## Users (`jenkins_user.go`, `path_users.go`) -/

def jenkinsUserType : String := "jenkins_user"

/-- The Go struct `jenkinsUser`. -/
structure jenkinsUser where
  Username : String
  Password : String
  Fullname : String
  Email : String
  TTL : Int
  MaxTTL : Int
  deriving DecidableEq

/-- The fields of a request on `users/<name>` as `d.Get` returns them: three
strings, and for the two duration fields a number of whole seconds. -/
structure UsersFieldData where
  password : String
  fullname : String
  email : String
  ttl : Int
  max_ttl : Int

/-- The method `jenkinsUser.toResponseData`. -/
def jenkinsUser.toResponseData (user : jenkinsUser) : Map :=
  [("username", .str user.Username),
   ("fullname", .str user.Fullname),
   ("email", .str user.Email)]

/-- The method `getUserPath`. -/
def getUserPath (username : String) : String :=
  usersPrefix ++ "/" ++ username

/-- The method `parseUsernameFromPath`. -/
def parseUsernameFromPath (path : String) : String :=
  TrimPrefix path (usersPrefix ++ "/")

/-- Decoding of a storage entry into `jenkinsUser` (`entry.DecodeJSON`). -/
def decodeUser (obj : JSONObject) : Except Error jenkinsUser :=
  match decodeString obj "username", decodeString obj "password",
      decodeString obj "fullname", decodeString obj "email",
      decodeDuration obj "ttl", decodeDuration obj "max_ttl" with
  | .ok u, .ok p, .ok f, .ok e, .ok t, .ok m =>
    .ok { Username := u, Password := p, Fullname := f, Email := e, TTL := t, MaxTTL := m }
  | .error e, _, _, _, _, _ => .error e
  | _, .error e, _, _, _, _ => .error e
  | _, _, .error e, _, _, _ => .error e
  | _, _, _, .error e, _, _ => .error e
  | _, _, _, _, .error e, _ => .error e
  | _, _, _, _, _, .error e => .error e

/-- The function `createUser` of `jenkins_user.go`: the downstream call. -/
def createUser (env : Env) (w : State) (j : jenkinsClient)
    (username password fullname email : String) : Except Error jenkinsUser × State :=
  let w1 := w.record (.CreateUser j username password fullname email)
  match env.CreateUser j username password fullname email with
  | .error e => (.error ("error creating jenkins user: " ++ e), w1)
  | .ok user =>
    (.ok { Username := user.UserName, Password := password, Fullname := user.FullName,
           Email := user.Email, TTL := 0, MaxTTL := 0 }, w1)

/-- The function `deleteUser` of `jenkins_user.go`: the downstream call. -/
def deleteUser (env : Env) (w : State) (j : jenkinsClient) (username : String) :
    Option Error × State :=
  (env.DeleteUser j username, w.record (.DeleteUser j username))

/-- The method `getUserFromStorage`. -/
def getUserFromStorage (env : Env) (w : State) (username : String) :
    Except Error (Option jenkinsUser) × State :=
  if username = "" then (.error "missing username", w)
  else
    match storageGet env w (getUserPath username) with
    | (.error e, w1) => (.error e, w1)
    | (.ok none, w1) => (.ok none, w1)
    | (.ok (some entry), w1) =>
      match decodeUser entry with
      | .error e => (.error e, w1)
      | .ok user => (.ok (some user), w1)

/-- The method `pathUsersExistenceCheck`. -/
def pathUsersExistenceCheck (env : Env) (w : State) (req : Request) :
    Except Error Bool × State :=
  match storageGet env w req.Path with
  | (.error e, w1) => (.error ("existence check failed: " ++ e), w1)
  | (.ok out, w1) => (.ok out.isSome, w1)

/-- The method `pathUsersRead`. -/
def pathUsersRead (env : Env) (w : State) (req : Request) : Outcome × State :=
  let username := parseUsernameFromPath req.Path
  match getUserFromStorage env w username with
  | (.error e, w1) => (.returned none (some e), w1)
  | (.ok none, w1) => (.returned none none, w1)
  | (.ok (some entry), w1) =>
    (.returned (some { Secret := none, Data := entry.toResponseData }) none, w1)

/-- The method `pathUsersDelete`. -/
def pathUsersDelete (env : Env) (w : State) (req : Request) : Outcome × State :=
  let username := parseUsernameFromPath req.Path
  match getClient env w with
  | (.error e, w1) => (.returned none (some e), w1)
  | (.ok client, w1) =>
    match deleteUser env w1 client username with
    | (some e, w2) => (.returned (some (ErrorResponse e)) (some e), w2)
    | (none, w2) =>
      match storageDelete env w2 (getUserPath username) with
      | (some e, w3) => (.returned (some (ErrorResponse e)) (some e), w3)
      | (none, w3) => (.returned none none, w3)

/-- The method `createUser` of the backend (`path_users.go`).  Its test
`user == nil` never fires: the function `createUser` returns a user whenever
it returns no error. -/
def jenkinsBackend.createUser (env : Env) (w : State) (userConfig : jenkinsUser) :
    Except Error jenkinsUser × State :=
  match getClient env w with
  | (.error e, w1) => (.error e, w1)
  | (.ok client, w1) =>
    match JenkinsSecrets.createUser env w1 client userConfig.Username userConfig.Password
        userConfig.Fullname userConfig.Email with
    | (.error e, w2) => (.error ("error creating Jenkins user: " ++ e), w2)
    | (.ok user, w2) => (.ok user, w2)

/-- The method `createJenkinsUser`.  The second name of the source, the
parameter `jenkinsUser`, is `userConfig` here. -/
def createJenkinsUser (env : Env) (w : State) (userConfig : jenkinsUser) :
    Outcome × State :=
  match jenkinsBackend.createUser env w userConfig with
  | (.error e, w1) => (.returned none (some e), w1)
  | (.ok user, w1) =>
    let internalData : Map :=
      [("username", .str user.Username),
       ("fullname", .str user.Fullname),
       ("email", .str user.Email),
       ("ttl", .duration user.TTL),
       ("max_ttl", .duration user.MaxTTL)]
    let resp := SecretResponse env jenkinsUserType user.toResponseData internalData
    match StorageEntryJSON (getUserPath userConfig.Username) internalData with
    | .error e => (.returned (some (ErrorResponse "error creating user storage entry")) (some e), w1)
    | .ok entry =>
      match storagePut env w1 entry.1 entry.2 with
      | (some e, w2) =>
        (.returned (some (ErrorResponse "error writing user to internal storage")) (some e), w2)
      | (none, w2) =>
        let resp1 : Response :=
          if userConfig.TTL > 0 then
            { resp with Secret := resp.Secret.map (fun s => { s with TTL := userConfig.TTL }) }
          else resp
        let resp2 : Response :=
          if userConfig.MaxTTL > 0 then
            { resp1 with Secret := resp1.Secret.map (fun s => { s with MaxTTL := userConfig.MaxTTL }) }
          else resp1
        (.returned (some resp2) none, w2)

/-- The method `pathUsersWrite`. -/
def pathUsersWrite (env : Env) (w : State) (req : Request) (d : UsersFieldData) :
    Outcome × State :=
  match pathUsersExistenceCheck env w req with
  | (.error e, w1) => (.returned (some (ErrorResponse e)) (some e), w1)
  | (.ok true, w1) => (.returned (some (ErrorResponse "user already exists")) none, w1)
  | (.ok false, w1) =>
    let username := parseUsernameFromPath req.Path
    let ttl := durationMul (int64 d.ttl) Second
    let maxTtl := durationMul (int64 d.max_ttl) Second
    createJenkinsUser env w1
      { Username := username, Password := d.password, Fullname := d.fullname,
        Email := d.email, TTL := ttl, MaxTTL := maxTtl }

/-- The method `userRevoke`; `secret` is `req.Secret`, which the host sets on
every revoke and renew request. -/
def userRevoke (env : Env) (w : State) (secret : Secret) : Outcome × State :=
  match getClient env w with
  | (.error e, w1) => (.returned none (some ("error getting client: " ++ e)), w1)
  | (.ok client, w1) =>
    let name : Except Error String :=
      match secret.InternalData.lookup "username" with
      | none => .ok ""
      | some (.str s) => .ok s
      | some _ => .error "invalid value for username in secret internal data"
    match name with
    | .error e => (.returned none (some e), w1)
    | .ok username =>
      match deleteUser env w1 client username with
      | (some e, w2) => (.returned none (some ("error revoking user: " ++ e)), w2)
      | (none, w2) =>
        match storageDelete env w2 (getUserPath username) with
        | (some e, w3) => (.returned none (some ("error remove user from storage: " ++ e)), w3)
        | (none, w3) => (.returned none none, w3)

/-- The Go conversion `time.Duration(f)` of a float: the fraction is dropped. -/
def float64ToDuration (env : Env) (f : ℚ) : Int :=
  let t := f.num.tdiv f.den
  if -(2 ^ 63) ≤ t ∧ t < 2 ^ 63 then t else int64 (env.outOfRange f)

/-- The method `userRenew`.  The result is the outcome, the secret of the
request after the call (the response points to it and the method writes
through that pointer) and the state. -/
def userRenew (env : Env) (w : State) (secret : Secret) : Outcome × Secret × State :=
  match secret.InternalData.lookup "ttl" with
  | none => (.returned none (some "secret is missing ttl internal data"), secret, w)
  | some ttlRaw =>
    match secret.InternalData.lookup "max_ttl" with
    | none => (.returned none (some "secret is missing max_ttl internal data"), secret, w)
    | some maxTtlRaw =>
      match ttlRaw with
      | .float64 t =>
        match maxTtlRaw with
        | .float64 m =>
          let ttl := durationMul (float64ToDuration env t) Second
          let maxTtl := durationMul (float64ToDuration env m) Second
          let s1 : Secret := if ttl > 0 then { secret with TTL := ttl } else secret
          let s2 : Secret := if maxTtl > 0 then { s1 with MaxTTL := maxTtl } else s1
          (.returned (some { Secret := some s2, Data := [] }) none, s2, w)
        | _ => (.panicked "interface conversion: max_ttl is not float64", secret, w)
      | _ => (.panicked "interface conversion: ttl is not float64", secret, w)

/-! ## Tokens (`jenkins_token.go`, `path_tokens.go`) -/

def jenkinsTokenType : String := "jenkins_token"

/-- The Go struct `jenkinsToken`. -/
structure jenkinsToken where
  Token : String
  TokenID : String
  Name : String
  TTL : Int
  MaxTTL : Int
  deriving DecidableEq

/-- The fields of a request on `tokens/<name>` as `d.Get` returns them: for
the two duration fields a number of whole seconds. -/
structure TokensFieldData where
  ttl : Int
  max_ttl : Int

/-- The method `jenkinsToken.toResponseData`. -/
def jenkinsToken.toResponseData (token : jenkinsToken) : Map :=
  [("token", .str token.Token),
   ("token_name", .str token.Name),
   ("token_id", .str token.TokenID)]

/-- The function `createToken` of `jenkins_token.go`: the downstream call. -/
def createToken (env : Env) (w : State) (j : jenkinsClient) (tokenName : String) :
    Except Error jenkinsToken × State :=
  let w1 := w.record (.GenerateAPIToken j tokenName)
  match env.GenerateAPIToken j tokenName with
  | .error e => (.error ("error creating jenkins token: " ++ e), w1)
  | .ok token =>
    (.ok { Token := token.Value, TokenID := token.UUID, Name := "", TTL := 0, MaxTTL := 0 }, w1)

/-- The function `deleteToken` of `jenkins_token.go`: the downstream call. -/
def deleteToken (env : Env) (w : State) (j : jenkinsClient) (tokenID : String) :
    Option Error × State :=
  (env.RevokeAPIToken j tokenID, w.record (.RevokeAPIToken j tokenID))

/-- The method `createToken` of the backend (`path_tokens.go`).  Its test
`token == nil` never fires: the function `createToken` returns a token
whenever it returns no error. -/
def jenkinsBackend.createToken (env : Env) (w : State) (tokenName : String) :
    Except Error jenkinsToken × State :=
  match getClient env w with
  | (.error e, w1) => (.error e, w1)
  | (.ok client, w1) =>
    match JenkinsSecrets.createToken env w1 client tokenName with
    | (.error e, w2) => (.error ("error creating Jenkins token: " ++ e), w2)
    | (.ok token, w2) => (.ok token, w2)

/-- The method `createUserToken`.  The parameter `jenkinsToken` of the source
is `tokenConfig` here. -/
def createUserToken (env : Env) (w : State) (req : Request) (tokenConfig : jenkinsToken) :
    Outcome × State :=
  let tokenName := TrimPrefix req.Path (tokensPrefix ++ "/")
  match jenkinsBackend.createToken env w tokenName with
  | (.error e, w1) => (.returned none (some e), w1)
  | (.ok token0, w1) =>
    let token : jenkinsToken := { token0 with Name := tokenName }
    let internalData : Map :=
      [("token_id", .str token.TokenID),
       ("token_name", .str tokenName),
       ("ttl", .duration token.TTL),
       ("max_ttl", .duration token.MaxTTL)]
    let resp := SecretResponse env jenkinsTokenType token.toResponseData internalData
    let resp1 : Response :=
      if tokenConfig.TTL > 0 then
        { resp with Secret := resp.Secret.map (fun s => { s with TTL := tokenConfig.TTL }) }
      else resp
    let resp2 : Response :=
      if tokenConfig.MaxTTL > 0 then
        { resp1 with Secret := resp1.Secret.map (fun s => { s with MaxTTL := tokenConfig.MaxTTL }) }
      else resp1
    (.returned (some resp2) none, w1)

/-- The method `pathTokensRead`. -/
def pathTokensRead (env : Env) (w : State) (req : Request) (d : TokensFieldData) :
    Outcome × State :=
  let ttl := durationMul (int64 d.ttl) Second
  let maxTtl := durationMul (int64 d.max_ttl) Second
  createUserToken env w req
    { Token := "", TokenID := "", Name := "", TTL := ttl, MaxTTL := maxTtl }

/-- The method `tokenRevoke`; `secret` is `req.Secret`. -/
def tokenRevoke (env : Env) (w : State) (secret : Secret) : Outcome × State :=
  match getClient env w with
  | (.error e, w1) => (.returned none (some ("error getting client: " ++ e)), w1)
  | (.ok client, w1) =>
    let id : Except Error String :=
      match secret.InternalData.lookup "token_id" with
      | none => .ok ""
      | some (.str s) => .ok s
      | some _ => .error "invalid value for token_id in secret internal data"
    match id with
    | .error e => (.returned none (some e), w1)
    | .ok tokenID =>
      match deleteToken env w1 client tokenID with
      | (some e, w2) => (.returned none (some ("error revoking user token: " ++ e)), w2)
      | (none, w2) => (.returned none none, w2)

/-- The method `tokenRenew`, with the result of `userRenew`. -/
def tokenRenew (env : Env) (w : State) (secret : Secret) : Outcome × Secret × State :=
  match secret.InternalData.lookup "ttl" with
  | none => (.returned none (some "secret is missing ttl internal data"), secret, w)
  | some ttlRaw =>
    match secret.InternalData.lookup "max_ttl" with
    | none => (.returned none (some "secret is missing max_ttl internal data"), secret, w)
    | some maxTtlRaw =>
      match ttlRaw with
      | .float64 t =>
        match maxTtlRaw with
        | .float64 m =>
          let ttl := durationMul (float64ToDuration env t) Second
          let maxTtl := durationMul (float64ToDuration env m) Second
          let s1 : Secret := if ttl > 0 then { secret with TTL := ttl } else secret
          let s2 : Secret := if maxTtl > 0 then { s1 with MaxTTL := maxTtl } else s1
          (.returned (some { Secret := some s2, Data := [] }) none, s2, w)
        | _ => (.panicked "interface conversion: max_ttl is not float64", secret, w)
      | _ => (.panicked "interface conversion: ttl is not float64", secret, w)

/-! ## Configuration (`path_config.go`, `backend.go`) -/

/-- The fields of a request on `config`: what `data.GetOk` returns for the
three string fields (nothing when the field was not supplied) and what
`data.Get` returns for `validate`, whose default is true. -/
structure ConfigFieldData where
  username : Option String
  url : Option String
  password : Option String
  validate : Bool

/-- The function `logical.StorageEntryJSON` applied to a configuration: the
JSON object of the struct, `validate` left out when it is false. -/
def encodeConfig (config : jenkinsConfig) : JSONObject :=
  [("username", .str config.Username), ("password", .str config.Password),
   ("url", .str config.URL)] ++ (if config.ValidateClient then [("validate", .bool true)] else [])

/-- The method `reset` of `backend.go`. -/
def reset (w : State) : State :=
  { w with client := none }

/-- The method `invalidate` of `backend.go`. -/
def invalidate (w : State) (key : String) : State :=
  if key = configPrefix then reset w else w

/-- The method `pathConfigExistenceCheck`. -/
def pathConfigExistenceCheck (env : Env) (w : State) (req : Request) :
    Except Error Bool × State :=
  match storageGet env w req.Path with
  | (.error e, w1) => (.error ("existence check failed: " ++ e), w1)
  | (.ok out, w1) => (.ok out.isSome, w1)

/-- The method `pathConfigRead`.  With no stored configuration `getConfig`
returns a nil pointer and the read of `config.Username` panics. -/
def pathConfigRead (env : Env) (w : State) : Outcome × State :=
  match getConfig env w with
  | (.error e, w1) => (.returned none (some e), w1)
  | (.ok none, w1) =>
    (.panicked "runtime error: invalid memory address or nil pointer dereference", w1)
  | (.ok (some config), w1) =>
    (.returned (some { Secret := none,
                       Data := [("username", .str config.Username), ("url", .str config.URL)] })
      none, w1)

/-- The method `pathConfigWrite`.  The encoding of the configuration by
`logical.StorageEntryJSON` cannot fail, so its error branch is left out. -/
def pathConfigWrite (env : Env) (w : State) (req : Request) (data : ConfigFieldData) :
    Outcome × State :=
  match getConfig env w with
  | (.error e, w1) => (.returned none (some e), w1)
  | (.ok stored, w1) =>
    let createOperation : Bool := decide (req.Operation = .CreateOperation)
    let start : Except Error jenkinsConfig :=
      match stored with
      | some config => .ok config
      | none =>
        if !createOperation then .error "config not found during update operation"
        else .ok { Username := "", Password := "", URL := "", ValidateClient := false }
    match start with
    | .error e => (.returned none (some e), w1)
    | .ok config0 =>
      let withUsername : Except Error jenkinsConfig :=
        match data.username with
        | some username => .ok { config0 with Username := username }
        | none =>
          if createOperation then .error "missing username in configuration" else .ok config0
      match withUsername with
      | .error e => (.returned none (some e), w1)
      | .ok config1 =>
        let withURL : Except Error jenkinsConfig :=
          match data.url with
          | some url => .ok { config1 with URL := url }
          | none =>
            if createOperation then .error "missing url in configuration" else .ok config1
        match withURL with
        | .error e => (.returned none (some e), w1)
        | .ok config2 =>
          let withPassword : Except Error jenkinsConfig :=
            match data.password with
            | some password => .ok { config2 with Password := password }
            | none =>
              if createOperation then .error "missing password in configuration"
              else .ok config2
          match withPassword with
          | .error e => (.returned none (some e), w1)
          | .ok config =>
            match storagePut env w1 configPrefix (encodeConfig config) with
            | (some e, w2) => (.returned none (some e), w2)
            | (none, w2) =>
              if data.validate then
                match getClient env w2 with
                | (.error e, w3) => (.returned (some (ErrorResponse e)) (some e), w3)
                | (.ok client, w3) =>
                  match env.Init client with
                  | some e =>
                    (.returned (some (ErrorResponse e)) (some e),
                      reset (w3.record (.Init client)))
                  | none => (.returned none none, reset (w3.record (.Init client)))
              else (.returned none none, reset w2)

/-- The method `pathConfigDelete`. -/
def pathConfigDelete (env : Env) (w : State) : Outcome × State :=
  match storageDelete env w configPrefix with
  | (none, w1) => (.returned none none, reset w1)
  | (some e, w1) => (.returned none (some e), w1)

/-! ## Reading the results -/

/-- A call succeeded, as the tests judge it: no Go error and no error
response. -/
def Outcome.succeeded : Outcome → Bool
  | .returned none none => true
  | .returned (some r) none => !r.IsError
  | _ => false

/-- The secret of the response of a call that returned one. -/
def Outcome.secret : Outcome → Option Secret
  | .returned (some r) _ => r.Secret
  | _ => none

/-- The data of the response of a call that returned one. -/
def Outcome.data : Outcome → Option Map
  | .returned (some r) _ => some r.Data
  | _ => none

/-- The keys of a map. -/
def keys {α : Type} (m : List (String × α)) : List String := m.map (fun kv => kv.1)

/-! ## The reference definition of renew -/

/-- A duration of `t` seconds, in nanoseconds (the whole part, when `t`
seconds is not a whole number of nanoseconds). -/
def secondsSpec (t : ℚ) : Int := (t.num * 1000000000) / t.den

/-- The reference definition of renew, in the words of the specification,
as a test on the result `r` of a renew of `secret` from the state `w`.  When
`ttl` or `max_ttl` is absent from the internal data the call fails with an
error and the lease is not mutated.  When both are numbers `t` and `m` it
returns the same lease with TTL set to `t` seconds exactly when `t > 0` and
MaxTTL set to `m` seconds exactly when `m > 0`, every other field unchanged,
and it makes no downstream call and no storage write.  Internal data of
another shape is outside the definition. -/
def renewSpec (w : State) (secret : Secret) (r : Outcome × Secret × State) : Bool :=
  match secret.InternalData.lookup "ttl", secret.InternalData.lookup "max_ttl" with
  | some (.float64 t), some (.float64 m) =>
    let s1 : Secret := if t > 0 then { secret with TTL := secondsSpec t } else secret
    let s2 : Secret := if m > 0 then { s1 with MaxTTL := secondsSpec m } else s1
    (match r.1 with
      | .returned (some resp) none => decide (resp.Secret = some s2)
      | _ => false)
      && decide (r.2.1 = s2) && decide (r.2.2.downstream = w.downstream)
      && decide (r.2.2.writes = w.writes) && decide (r.2.2.storage = w.storage)
  | some _, some _ => true
  | _, _ =>
    (match r.1 with
      | .returned _ (some _) => true
      | _ => false)
      && decide (r.2.1 = secret) && decide (r.2.2.downstream = w.downstream)
      && decide (r.2.2.writes = w.writes) && decide (r.2.2.storage = w.storage)

/-! ## The stored configuration -/

/-- The configuration that the storage holds at `config`: the decoded record,
nothing when there is no record or it does not decode. -/
def storedConfig (w : State) : Option jenkinsConfig :=
  match w.storage.lookup configPrefix with
  | some entry => (decodeConfig entry).toOption
  | none => none

/-- The client that `gojenkins.CreateJenkins` builds from a configuration. -/
def clientOf (config : jenkinsConfig) : jenkinsClient :=
  { URL := config.URL, Username := config.Username, Password := config.Password }

/-! ## The reference definition of a configuration write -/

/-- The reference definition of the storage effect of a configuration write,
in the words of the specification: the record to persist at `config`, or
nothing when the write fails and the storage is unchanged.  On a create-style
write, if any of username, url or password is not supplied the write fails;
on an update with no stored configuration the write fails; otherwise the
record is the previously stored record (the empty record when none is stored,
as on create) with exactly the supplied fields among username, url and
password overwritten and every unsupplied field kept. -/
def configWriteSpec (stored : Option jenkinsConfig) (create : Bool) (data : ConfigFieldData) :
    Option jenkinsConfig :=
  if create && (data.username.isNone || data.url.isNone || data.password.isNone) then none
  else if !create && stored.isNone then none
  else
    let previous : jenkinsConfig :=
      stored.getD { Username := "", Password := "", URL := "", ValidateClient := false }
    some { Username := data.username.getD previous.Username,
           Password := data.password.getD previous.Password,
           URL := data.url.getD previous.URL,
           ValidateClient := previous.ValidateClient }

/-- The state after a successful `Storage.Put` of a configuration that
follows the read of `config`. -/
def afterConfigPut (w : State) (config : jenkinsConfig) : State :=
  { storage := (configPrefix, encodeConfig config)
      :: w.storage.filter (fun kv => kv.1 != configPrefix),
    client := w.client,
    log := w.log ++ [.storageGet configPrefix, .storagePut configPrefix] }

/-! ## The users and their records -/

/-- The effect of one event on whether the downstream user `name` exists: a
`CreateUser` of `name` that succeeds creates it, a `DeleteUser` of `name` that
succeeds deletes it. -/
def userLiveStep (env : Env) (name : String) (live : Bool) : Event → Bool
  | .CreateUser c username password fullname email =>
    if username = name then
      match env.CreateUser c username password fullname email with
      | .ok _ => true
      | .error _ => live
    else live
  | .DeleteUser c username =>
    if username = name then
      match env.DeleteUser c username with
      | none => false
      | some _ => live
    else live
  | _ => live

/-- Whether, after the events of a trace, the downstream user `name` has been
created by this backend and not yet deleted downstream. -/
def userLive (env : Env) (name : String) (log : List Event) : Bool :=
  log.foldl (userLiveStep env name) false

/-- The invariant of the user records: a record exists at `users/<name>` if
and only if the downstream user `name` has been created by this backend and
not yet deleted downstream. -/
def UsersInvariant (env : Env) (w : State) : Prop :=
  ∀ name, (w.storage.lookup (getUserPath name)).isSome = userLive env name w.log

/-- Two states with the same user records and the same downstream users. -/
def KeepsUsers (env : Env) (w w' : State) : Prop :=
  (∀ name, w'.storage.lookup (getUserPath name) = w.storage.lookup (getUserPath name))
    ∧ ∀ name, userLive env name w'.log = userLive env name w.log

/-- The operations of the backend, with their arguments. -/
inductive Call where
  | usersWrite (req : Request) (d : UsersFieldData)
  | usersRead (req : Request)
  | usersDelete (req : Request)
  | userRevoke (secret : Secret)
  | userRenew (secret : Secret)
  | tokensRead (req : Request) (d : TokensFieldData)
  | tokenRevoke (secret : Secret)
  | tokenRenew (secret : Secret)
  | configRead
  | configWrite (req : Request) (data : ConfigFieldData)
  | configDelete

/-- The state after an operation. -/
def Call.run (env : Env) (w : State) : Call → State
  | .usersWrite req d => (pathUsersWrite env w req d).2
  | .usersRead req => (pathUsersRead env w req).2
  | .usersDelete req => (pathUsersDelete env w req).2
  | .userRevoke secret => (JenkinsSecrets.userRevoke env w secret).2
  | .userRenew secret => (JenkinsSecrets.userRenew env w secret).2.2
  | .tokensRead req d => (pathTokensRead env w req d).2
  | .tokenRevoke secret => (JenkinsSecrets.tokenRevoke env w secret).2
  | .tokenRenew secret => (JenkinsSecrets.tokenRenew env w secret).2.2
  | .configRead => (pathConfigRead env w).2
  | .configWrite req data => (pathConfigWrite env w req data).2
  | .configDelete => (pathConfigDelete env w).2

/-! ## Concurrent callers of `getClient` -/

/-- The section of `getClient` that runs under the shared lock, from `RLock`
to the return of the cached client: the cached client, if there is one.  No
caller writes the cache while another holds the shared lock. -/
def getClientShared (w : State) : Option jenkinsClient :=
  w.client

/-- The section of `getClient` that runs under the exclusive lock, from `Lock`
to the return: the configuration is read, the client built and assigned to
the cache.  The cache is not read again after `Lock`. -/
def getClientExclusive (env : Env) (w : State) : Except Error jenkinsClient × State :=
  match getConfig env w with
  | (.error e, w1) => (.error e, w1)
  | (.ok cfg, w1) =>
    let config := cfg.getD { Username := "", Password := "", URL := "", ValidateClient := false }
    match newClient config with
    | .error e => (.error e, { w1 with client := none })
    | .ok c =>
      (.ok c, { (w1.record (.CreateJenkins config.URL config.Username config.Password)) with
        client := some c })

/-- Where a caller of `getClient` stands: before the shared section, between
`RUnlock` and `Lock` after it has seen an empty cache, or returned. -/
inductive Caller where
  | start
  | waiting
  | done (r : Except Error jenkinsClient)
  deriving DecidableEq

/-- The next section of a caller, run on the state of the backend. -/
def Caller.step (env : Env) (w : State) : Caller → Caller × State
  | .start =>
    match getClientShared w with
    | some c => (.done (.ok c), w)
    | none => (.waiting, w)
  | .waiting => (.done (getClientExclusive env w).1, (getClientExclusive env w).2)
  | .done r => (.done r, w)

/-- One step of a run of concurrent callers: the caller `i` runs its next
section.  The sections are the units of the interleaving: the two locks keep
an exclusive section apart from every other section. -/
def stepAt (env : Env) (run : State × List Caller) (i : Nat) : State × List Caller :=
  match run.2[i]? with
  | none => run
  | some caller => ((caller.step env run.1).2, run.2.set i (caller.step env run.1).1)

/-- A run of `n` callers of `getClient` from the state `w`: the callers take
their sections in the order of the schedule. -/
def runCallers (env : Env) (w : State) (n : Nat) (schedule : List Nat) : State × List Caller :=
  schedule.foldl (stepAt env) (w, List.replicate n .start)

/-- Whether an event is the construction of a client. -/
def Event.isConstruction : Event → Bool
  | .CreateJenkins _ _ _ => true
  | _ => false

/-- The number of clients constructed in the trace. -/
def State.constructions (w : State) : Nat :=
  (w.log.filter Event.isConstruction).length

/-- The client `c` is the one that `newClient` builds from the configuration
stored in `w`. -/
def BuiltFrom (w : State) (c : jenkinsClient) : Prop :=
  ∃ cfg, storedConfig w = some cfg ∧ newClient cfg = .ok c

/-- Whether a caller has not returned yet. -/
def Caller.pending : Caller → Nat
  | .done _ => 0
  | _ => 1

/-- The number of callers that have not returned yet. -/
def pendingCallers : List Caller → Nat
  | [] => 0
  | c :: cs => c.pending + pendingCallers cs

/-! ## A run of the test scenario -/

/-- A host and a Jenkins server on which every call succeeds: the server
returns the user as requested and derives the token from its name. -/
def testEnv : Env :=
  { getErr := fun _ => none,
    putErr := fun _ => none,
    deleteErr := fun _ => none,
    Init := fun _ => none,
    CreateUser := fun _ u _ f e => .ok { UserName := u, FullName := f, Email := e },
    DeleteUser := fun _ _ => none,
    GenerateAPIToken := fun _ n => .ok { Value := "value-of-" ++ n, UUID := "id-of-" ++ n },
    RevokeAPIToken := fun _ _ => none,
    defaultLease := { TTL := 0, MaxTTL := 0, Renewable := true, Increment := 0, IssueTime := 0 },
    outOfRange := fun _ => -(2 ^ 63) }

/-- The configuration record of the tests. -/
def testConfig : JSONObject :=
  [("username", .str "admin"), ("password", .str "admin"), ("url", .str "http://localhost:8080")]

/-- The state after `AddTestConfig`, with an empty trace. -/
def testState : State :=
  { storage := [("config", testConfig)], client := none, log := [] }

/-- The test environment with a Jenkins server that refuses to delete users. -/
def refusingEnv : Env :=
  { testEnv with DeleteUser := fun _ _ => some "user could not be deleted" }

/-- The state after the test user has been created. -/
def testStateWithUser : State :=
  (pathUsersWrite testEnv testState ⟨.CreateOperation, "users/testUsername", none⟩
    ⟨"testPassword", "testFullname", "testEmail@testemail.com", 0, 0⟩).2

/-- A lease with the given internal data. -/
def testLease (internal : Map) : Secret :=
  { TTL := 0, MaxTTL := 0, Renewable := true, Increment := 0, IssueTime := 0,
    InternalData := internal, LeaseID := "lease" }

/-- The number one half. -/
def half : ℚ := ⟨1, 2, by decide, by decide⟩

/-- The test state after a first `getClient`: the cache holds the client of
the test configuration. -/
def cachedState : State :=
  (getClient testEnv testState).2

/-- The test environment with a Jenkins server that accepts the password
`admin` only. -/
def strictEnv : Env :=
  { testEnv with Init := fun c => if c.Password = "admin" then none else some "401 Unauthorized" }

/-- A state with nothing in the storage. -/
def emptyState : State :=
  { storage := [], client := none, log := [] }

/-- The test environment with a storage that refuses every write. -/
def sealedEnv : Env :=
  { testEnv with putErr := fun _ => some "storage is sealed" }

/-! ## Auxiliary facts -/

theorem TrimPrefix_append (p u : String) : TrimPrefix (p ++ u) p = u := by
  have h : p.data.isPrefixOf (p.data ++ u.data) = true := by
    simp [List.isPrefixOf_iff_prefix]
  simp [TrimPrefix, String.data_append, h]

theorem parseUsernameFromPath_getUserPath (u : String) :
    parseUsernameFromPath (getUserPath u) = u := by
  simp [parseUsernameFromPath, getUserPath, TrimPrefix_append]

theorem record_storage (w : State) (e : Event) : (w.record e).storage = w.storage := rfl

theorem record_client (w : State) (e : Event) : (w.record e).client = w.client := rfl

theorem record_log (w : State) (e : Event) : (w.record e).log = w.log ++ [e] := rfl

theorem storageGet_state (env : Env) (w : State) (key : String) :
    (storageGet env w key).2 = w.record (.storageGet key) := by
  unfold storageGet
  split <;> rfl

theorem getConfig_state (env : Env) (w : State) :
    (getConfig env w).2 = w.record (.storageGet configPrefix) := by
  unfold getConfig storageGet
  cases env.getErr configPrefix <;> simp only
  cases List.lookup configPrefix w.storage <;> simp only
  cases decodeConfig _ <;> rfl

theorem getConfig_record (env : Env) (w : State) (ev : Event) :
    (getConfig env (w.record ev)).1 = (getConfig env w).1 := by
  unfold getConfig storageGet
  simp only [record_storage]
  cases env.getErr configPrefix <;> simp only
  cases List.lookup configPrefix w.storage <;> simp only
  cases decodeConfig _ <;> rfl

theorem getClient_storage (env : Env) (w : State) : (getClient env w).2.storage = w.storage := by
  unfold getClient
  cases w.client with
  | some c => rfl
  | none =>
    simp only
    have hs := getConfig_state env w
    rcases hgc : getConfig env w with ⟨r, w1⟩
    rw [hgc] at hs
    simp only at hs
    subst hs
    cases r with
    | error e => rfl
    | ok cfg =>
      simp only
      cases newClient _ <;> rfl

theorem getClient_downstream (env : Env) (w : State) :
    (getClient env w).2.downstream = w.downstream := by
  unfold getClient
  cases w.client with
  | some c => rfl
  | none =>
    simp only
    have hs := getConfig_state env w
    rcases hgc : getConfig env w with ⟨r, w1⟩
    rw [hgc] at hs
    simp only at hs
    subst hs
    cases r with
    | error e => simp [State.downstream, State.record, Event.isDownstream]
    | ok cfg =>
      simp only
      cases newClient _ <;> simp [State.downstream, State.record, Event.isDownstream]

theorem getClient_record (env : Env) (w : State) (ev : Event) :
    (getClient env (w.record ev)).1 = (getClient env w).1 := by
  unfold getClient
  simp only [record_client]
  cases w.client with
  | some c => rfl
  | none =>
    simp only
    have hv := getConfig_record env w ev
    rcases hgc : getConfig env w with ⟨r, w1⟩
    rcases hgc2 : getConfig env (w.record ev) with ⟨r2, w2⟩
    rw [hgc, hgc2] at hv
    simp only at hv
    subst hv
    cases r2 with
    | error e => rfl
    | ok cfg =>
      simp only
      cases newClient _ <;> rfl

theorem getClient_eta (env : Env) (w : State) (c : jenkinsClient)
    (hc : (getClient env w).1 = .ok c) : getClient env w = (.ok c, (getClient env w).2) := by
  rw [← hc]

/-- What `createJenkinsUser` does when the client is there, the downstream
call returns `user` and the storage accepts the write. -/
theorem createJenkinsUser_run (env : Env) (w : State) (cfg : jenkinsUser)
    (c : jenkinsClient) (user : gojenkinsUser)
    (hc : (getClient env w).1 = .ok c)
    (hd : env.CreateUser c cfg.Username cfg.Password cfg.Fullname cfg.Email = .ok user)
    (hp : env.putErr (getUserPath cfg.Username) = none) :
    ∃ s : Secret,
      (createJenkinsUser env w cfg).1
          = .returned (some ⟨some s, [("username", .str user.UserName),
              ("fullname", .str user.FullName), ("email", .str user.Email)]⟩) none
        ∧ s.TTL = (if cfg.TTL > 0 then cfg.TTL else env.defaultLease.TTL)
        ∧ s.MaxTTL = (if cfg.MaxTTL > 0 then cfg.MaxTTL else env.defaultLease.MaxTTL)
        ∧ s.InternalData = [("username", .str user.UserName), ("fullname", .str user.FullName),
            ("email", .str user.Email), ("ttl", .duration 0), ("max_ttl", .duration 0),
            ("secret_type", .str jenkinsUserType)]
        ∧ (createJenkinsUser env w cfg).2.storage
          = (getUserPath cfg.Username,
              [("username", .str user.UserName), ("fullname", .str user.FullName),
                ("email", .str user.Email), ("ttl", .num 0), ("max_ttl", .num 0)])
            :: w.storage.filter (fun kv => kv.1 != getUserPath cfg.Username) := by
  have hst := getClient_storage env w
  unfold createJenkinsUser jenkinsBackend.createUser
  rw [getClient_eta env w c hc]
  simp only [createUser, hd, StorageEntryJSON, storagePut, hp, SecretResponse,
    jenkinsUser.toResponseData, List.map, Value.toJSON, Option.map, record_storage, hst]
  by_cases h1 : cfg.TTL > 0 <;> by_cases h2 : cfg.MaxTTL > 0 <;>
    simp [h1, h2]

/-- A `createJenkinsUser` that succeeded had a client, a downstream user and a
storage that accepted the write. -/
theorem createJenkinsUser_succeeded (env : Env) (w : State) (cfg : jenkinsUser)
    (h : (createJenkinsUser env w cfg).1.succeeded = true) :
    ∃ c user, (getClient env w).1 = .ok c
      ∧ env.CreateUser c cfg.Username cfg.Password cfg.Fullname cfg.Email = .ok user
      ∧ env.putErr (getUserPath cfg.Username) = none := by
  unfold createJenkinsUser jenkinsBackend.createUser at h
  rcases hg : getClient env w with ⟨r, w1⟩
  rw [hg] at h
  cases r with
  | error e => simp [Outcome.succeeded] at h
  | ok c =>
    simp only [createUser] at h
    cases hd : env.CreateUser c cfg.Username cfg.Password cfg.Fullname cfg.Email with
    | error e => rw [hd] at h; simp [Outcome.succeeded] at h
    | ok user =>
      cases hp : env.putErr (getUserPath cfg.Username) with
      | none => exact ⟨c, user, rfl, hd, rfl⟩
      | some e =>
        rw [hd] at h
        simp [StorageEntryJSON, storagePut, hp, Outcome.succeeded, ErrorResponse,
          Response.IsError] at h

/-- A `pathUsersWrite` that succeeded found no record at the path and went
on to `createJenkinsUser`. -/
theorem pathUsersWrite_succeeded (env : Env) (w : State) (req : Request) (d : UsersFieldData)
    (h : (pathUsersWrite env w req d).1.succeeded = true) :
    env.getErr req.Path = none ∧ w.storage.lookup req.Path = none
      ∧ pathUsersWrite env w req d
        = createJenkinsUser env (w.record (.storageGet req.Path))
            { Username := parseUsernameFromPath req.Path, Password := d.password,
              Fullname := d.fullname, Email := d.email,
              TTL := durationMul (int64 d.ttl) Second,
              MaxTTL := durationMul (int64 d.max_ttl) Second } := by
  unfold pathUsersWrite pathUsersExistenceCheck storageGet at h ⊢
  cases hg : env.getErr req.Path with
  | some e =>
    rw [hg] at h
    simp [Outcome.succeeded] at h
  | none =>
    rw [hg] at h
    cases hl : List.lookup req.Path w.storage with
    | some entry =>
      rw [hl] at h
      simp [Outcome.succeeded, ErrorResponse, Response.IsError] at h
    | none => simp

theorem decodeUser_record (u f e : String) :
    decodeUser [("username", .str u), ("fullname", .str f), ("email", .str e),
        ("ttl", .num 0), ("max_ttl", .num 0)]
      = .ok { Username := u, Password := "", Fullname := f, Email := e, TTL := 0, MaxTTL := 0 } :=
  rfl

/-- The outcome of `pathUsersRead` depends on the state through the storage
only. -/
theorem pathUsersRead_storage (env : Env) (w w' : State) (req : Request)
    (h : w.storage = w'.storage) :
    (pathUsersRead env w req).1 = (pathUsersRead env w' req).1 := by
  unfold pathUsersRead getUserFromStorage storageGet
  simp only [h]
  by_cases hu : parseUsernameFromPath req.Path = ""
  · simp [hu]
  · simp only [hu, if_false]
    cases env.getErr (getUserPath (parseUsernameFromPath req.Path)) <;> simp only
    cases List.lookup (getUserPath (parseUsernameFromPath req.Path)) w'.storage <;> simp only
    cases decodeUser _ <;> rfl

/-- The data of a response of `pathUsersRead` has the three keys of
`toResponseData`. -/
theorem pathUsersRead_keys (env : Env) (w : State) (req : Request) (m : Map)
    (h : (pathUsersRead env w req).1.data = some m) :
    keys m = ["username", "fullname", "email"] := by
  unfold pathUsersRead at h
  simp only at h
  rcases hg : getUserFromStorage env w (parseUsernameFromPath req.Path) with ⟨r, w1⟩
  rw [hg] at h
  cases r with
  | error e => simp [Outcome.data] at h
  | ok o =>
    cases o with
    | none => simp [Outcome.data] at h
    | some user =>
      simp only [Outcome.data, Option.some.injEq] at h
      subst h
      rfl

theorem int64_of_range (x : Int) (h1 : -(2 ^ 63) ≤ x) (h2 : x < 2 ^ 63) : int64 x = x := by
  unfold int64
  omega

/-- A whole number of seconds that fits a `time.Duration` is computed without
wrap-around. -/
theorem seconds_of_range (T : Int) (h1 : -(2 ^ 63) ≤ T * 1000000000)
    (h2 : T * 1000000000 < 2 ^ 63) : durationMul (int64 T) Second = T * Second := by
  have h3 : int64 T = T := int64_of_range T (by omega) (by omega)
  rw [h3]
  unfold durationMul Second
  exact int64_of_range _ h1 h2

/-- What `createUserToken` does when the client is there and the downstream
call returns `token`. -/
theorem createUserToken_run (env : Env) (w : State) (req : Request) (cfg : jenkinsToken)
    (c : jenkinsClient) (token : APIToken)
    (hc : (getClient env w).1 = .ok c)
    (hd : env.GenerateAPIToken c (TrimPrefix req.Path (tokensPrefix ++ "/")) = .ok token) :
    ∃ s : Secret,
      (createUserToken env w req cfg).1
          = .returned (some ⟨some s, [("token", .str token.Value),
              ("token_name", .str (TrimPrefix req.Path (tokensPrefix ++ "/"))),
              ("token_id", .str token.UUID)]⟩) none
        ∧ s.TTL = (if cfg.TTL > 0 then cfg.TTL else env.defaultLease.TTL)
        ∧ s.MaxTTL = (if cfg.MaxTTL > 0 then cfg.MaxTTL else env.defaultLease.MaxTTL)
        ∧ s.InternalData = [("token_id", .str token.UUID),
            ("token_name", .str (TrimPrefix req.Path (tokensPrefix ++ "/"))),
            ("ttl", .duration 0), ("max_ttl", .duration 0),
            ("secret_type", .str jenkinsTokenType)]
        ∧ (createUserToken env w req cfg).2.storage = w.storage := by
  have hst := getClient_storage env w
  unfold createUserToken jenkinsBackend.createToken
  rw [getClient_eta env w c hc]
  simp only [createToken, hd, SecretResponse, jenkinsToken.toResponseData, Option.map,
    record_storage, hst]
  by_cases h1 : cfg.TTL > 0 <;> by_cases h2 : cfg.MaxTTL > 0 <;>
    simp [h1, h2]

/-- A `createUserToken` that succeeded had a client and a downstream token. -/
theorem createUserToken_succeeded (env : Env) (w : State) (req : Request) (cfg : jenkinsToken)
    (h : (createUserToken env w req cfg).1.succeeded = true) :
    ∃ c token, (getClient env w).1 = .ok c
      ∧ env.GenerateAPIToken c (TrimPrefix req.Path (tokensPrefix ++ "/")) = .ok token := by
  unfold createUserToken jenkinsBackend.createToken at h
  simp only at h
  rcases hg : getClient env w with ⟨r, w1⟩
  rw [hg] at h
  cases r with
  | error e => simp [Outcome.succeeded] at h
  | ok c =>
    simp only [createToken] at h
    cases hd : env.GenerateAPIToken c (TrimPrefix req.Path (tokensPrefix ++ "/")) with
    | error e => rw [hd] at h; simp [Outcome.succeeded] at h
    | ok token => exact ⟨c, token, rfl, hd⟩

/-! ## Creating a user that exists -/

/-- C1: when the storage returns a record at `users/u`, a create or update
request on `users/u` ends with the error response "user already exists" and
no Go error, the only external effect is the read of `users/u` (so no
downstream call and no storage write is made), and the storage, with the
record at `users/u`, is as before. -/
theorem pathUsersWrite_existing (env : Env) (w : State) (u : String) (op : Operation)
    (secret : Option Secret) (d : UsersFieldData) (entry : JSONObject)
    (hrec : (storageGet env w (getUserPath u)).1 = .ok (some entry)) :
    (pathUsersWrite env w ⟨op, getUserPath u, secret⟩ d).1
        = .returned (some (ErrorResponse "user already exists")) none
      ∧ (ErrorResponse "user already exists").IsError = true
      ∧ (pathUsersWrite env w ⟨op, getUserPath u, secret⟩ d).2.log
          = w.log ++ [.storageGet (getUserPath u)]
      ∧ (pathUsersWrite env w ⟨op, getUserPath u, secret⟩ d).2.downstream = w.downstream
      ∧ (pathUsersWrite env w ⟨op, getUserPath u, secret⟩ d).2.storage = w.storage
      ∧ (pathUsersWrite env w ⟨op, getUserPath u, secret⟩ d).2.storage.lookup (getUserPath u)
          = some entry := by
  have hst := storageGet_state env w (getUserPath u)
  have hlook : w.storage.lookup (getUserPath u) = some entry := by
    unfold storageGet at hrec
    split at hrec <;> simp_all
  have hex : pathUsersExistenceCheck env w ⟨op, getUserPath u, secret⟩
      = (.ok true, w.record (.storageGet (getUserPath u))) := by
    unfold pathUsersExistenceCheck
    rcases hsg : storageGet env w (getUserPath u) with ⟨r, w1⟩
    rw [hsg] at hrec hst
    simp only at hrec hst
    subst hrec hst
    simp
  have hw : pathUsersWrite env w ⟨op, getUserPath u, secret⟩ d
      = (.returned (some (ErrorResponse "user already exists")) none,
          w.record (.storageGet (getUserPath u))) := by
    unfold pathUsersWrite
    rw [hex]
  rw [hw]
  refine ⟨rfl, by decide, rfl, ?_, rfl, hlook⟩
  simp [State.downstream, State.record, Event.isDownstream]

/-- C1 at the test user: the record written by a first create is there when
the same create is repeated. -/
theorem pathUsersWrite_existing_witness :
    (storageGet testEnv
        (pathUsersWrite testEnv testState ⟨.CreateOperation, getUserPath "testUsername", none⟩
          ⟨"testPassword", "testFullname", "testEmail@testemail.com", 0, 0⟩).2
        (getUserPath "testUsername")).1
      = .ok (some [("username", .str "testUsername"), ("fullname", .str "testFullname"),
          ("email", .str "testEmail@testemail.com"), ("ttl", .num 0), ("max_ttl", .num 0)])
    ∧ (pathUsersWrite testEnv
        (pathUsersWrite testEnv testState ⟨.CreateOperation, getUserPath "testUsername", none⟩
          ⟨"testPassword", "testFullname", "testEmail@testemail.com", 0, 0⟩).2
        ⟨.UpdateOperation, getUserPath "testUsername", none⟩
        ⟨"testPassword", "testFullname", "testEmail@testemail.com", 0, 0⟩).1
      = .returned (some (ErrorResponse "user already exists")) none :=
  ⟨by decide,
   (pathUsersWrite_existing testEnv _ "testUsername" .UpdateOperation none
      ⟨"testPassword", "testFullname", "testEmail@testemail.com", 0, 0⟩
      [("username", .str "testUsername"), ("fullname", .str "testFullname"),
        ("email", .str "testEmail@testemail.com"), ("ttl", .num 0), ("max_ttl", .num 0)]
      (by decide)).1⟩

/-! ## Reading a user -/

/-- C2: for every username `u` that a request on `users/<name>` can carry (the
pattern of the path admits non-empty names only), after a create on `users/u`
that succeeded, with the downstream `CreateUser` returning `u`, `f` and `e`,
a read of `users/u` returns a response whose data is exactly the entries
`username: u`, `fullname: f` and `email: e`; and a read of `users/<name>`
for a non-empty name at which the storage returns no record returns no
response and no error. -/
theorem pathUsersRead_spec (env : Env) (w : State) (u p f e : String) (ttl maxTtl : Int)
    (op op2 : Operation) (sec sec2 : Option Secret) :
    (u ≠ "" →
      (pathUsersWrite env w ⟨op, getUserPath u, sec⟩ ⟨p, f, e, ttl, maxTtl⟩).1.succeeded = true →
      (∀ c, (getClient env w).1 = .ok c → env.CreateUser c u p f e = .ok ⟨u, f, e⟩) →
      (pathUsersRead env
          (pathUsersWrite env w ⟨op, getUserPath u, sec⟩ ⟨p, f, e, ttl, maxTtl⟩).2
          ⟨op2, getUserPath u, sec2⟩).1
        = .returned (some ⟨none, [("username", .str u), ("fullname", .str f),
            ("email", .str e)]⟩) none)
    ∧ (u ≠ "" →
      (storageGet env w (getUserPath u)).1 = .ok none →
      (pathUsersRead env w ⟨op2, getUserPath u, sec2⟩).1 = .returned none none) := by
  constructor
  · intro hu hok hdown
    obtain ⟨hget, -, heq⟩ := pathUsersWrite_succeeded env w _ _ hok
    simp only [parseUsernameFromPath_getUserPath] at hget heq
    rw [heq] at hok ⊢
    obtain ⟨c, user, hc, hd, hp⟩ := createJenkinsUser_succeeded env _ _ hok
    simp only at hd hp
    have hc0 : (getClient env w).1 = .ok c := by rw [← getClient_record env w _]; exact hc
    rw [hdown c hc0] at hd
    injection hd with hd
    subst hd
    obtain ⟨s, -, -, -, -, hst⟩ := createJenkinsUser_run env _
      ⟨u, p, f, e, durationMul (int64 ttl) Second, durationMul (int64 maxTtl) Second⟩
      c _ hc (hdown c hc0) hp
    simp only at hst
    unfold pathUsersRead getUserFromStorage storageGet
    simp only [parseUsernameFromPath_getUserPath, hu, if_false, hget, hst]
    simp [decodeUser_record, jenkinsUser.toResponseData]
  · intro hu hnone
    unfold pathUsersRead getUserFromStorage
    simp only [parseUsernameFromPath_getUserPath, hu, if_false]
    rcases hsg : storageGet env w (getUserPath u) with ⟨r, w1⟩
    rw [hsg] at hnone
    simp only at hnone
    subst hnone
    rfl

/-- C2 at the scenario of the specification: after the create of
`alice` the read returns her three entries, and the read of `bob`, who has no
record, returns nothing. -/
theorem pathUsersRead_spec_witness :
    (pathUsersRead testEnv
        (pathUsersWrite testEnv testState ⟨.CreateOperation, getUserPath "alice", none⟩
          ⟨"p", "Alice A", "a@x.com", 0, 0⟩).2
        ⟨.ReadOperation, getUserPath "alice", none⟩).1
      = .returned (some ⟨none, [("username", .str "alice"), ("fullname", .str "Alice A"),
          ("email", .str "a@x.com")]⟩) none
    ∧ (pathUsersRead testEnv testState ⟨.ReadOperation, getUserPath "bob", none⟩).1
      = .returned none none :=
  ⟨(pathUsersRead_spec testEnv testState "alice" "p" "Alice A" "a@x.com" 0 0
      .CreateOperation .ReadOperation none none).1 (by decide) (by decide) (fun _ _ => rfl),
   (pathUsersRead_spec testEnv testState "bob" "p" "Bob B" "b@x.com" 0 0
      .CreateOperation .ReadOperation none none).2 (by decide) (by decide)⟩

/-! ## The password of a user -/

/-- C3: two runs of `createJenkinsUser` from the same state on requests that
differ only in the password, the downstream answering both alike, end with
the same outcome and the same storage; when the run succeeds the storage has
an entry at `users/<name>` and that entry has no `password` field; a read
after either run has the same outcome, and the data it returns has no
`password` key. -/
theorem createJenkinsUser_password (env : Env) (w : State) (cfg : jenkinsUser) (p2 : String)
    (req : Request)
    (hdown : ∀ c, (getClient env w).1 = .ok c →
      env.CreateUser c cfg.Username p2 cfg.Fullname cfg.Email
        = env.CreateUser c cfg.Username cfg.Password cfg.Fullname cfg.Email) :
    (createJenkinsUser env w { cfg with Password := p2 }).2.storage
        = (createJenkinsUser env w cfg).2.storage
      ∧ (createJenkinsUser env w { cfg with Password := p2 }).1 = (createJenkinsUser env w cfg).1
      ∧ ((createJenkinsUser env w cfg).1.succeeded = true →
          ∃ entry, (createJenkinsUser env w cfg).2.storage.lookup (getUserPath cfg.Username)
              = some entry ∧ "password" ∉ keys entry)
      ∧ (pathUsersRead env (createJenkinsUser env w { cfg with Password := p2 }).2 req).1
          = (pathUsersRead env (createJenkinsUser env w cfg).2 req).1
      ∧ ∀ m, (pathUsersRead env (createJenkinsUser env w cfg).2 req).1.data = some m →
          "password" ∉ keys m := by
  have hpair : (createJenkinsUser env w { cfg with Password := p2 }).2.storage
        = (createJenkinsUser env w cfg).2.storage
      ∧ (createJenkinsUser env w { cfg with Password := p2 }).1
        = (createJenkinsUser env w cfg).1 := by
    unfold createJenkinsUser jenkinsBackend.createUser
    rcases hg : getClient env w with ⟨r, w1⟩
    cases r with
    | error e => exact ⟨rfl, rfl⟩
    | ok c =>
      have hc : (getClient env w).1 = .ok c := by rw [hg]
      simp only [createUser, hdown c hc]
      cases env.CreateUser c cfg.Username cfg.Password cfg.Fullname cfg.Email with
      | error e => exact ⟨rfl, rfl⟩
      | ok user =>
        simp only [StorageEntryJSON, storagePut]
        cases env.putErr (getUserPath cfg.Username) with
        | some e => exact ⟨rfl, rfl⟩
        | none => exact ⟨rfl, rfl⟩
  refine ⟨hpair.1, hpair.2, ?_, pathUsersRead_storage env _ _ req hpair.1, ?_⟩
  · intro hok
    obtain ⟨c, user, hc, hd, hp⟩ := createJenkinsUser_succeeded env w cfg hok
    obtain ⟨s, -, -, -, -, hst⟩ := createJenkinsUser_run env w cfg c user hc hd hp
    refine ⟨[("username", .str user.UserName), ("fullname", .str user.FullName),
      ("email", .str user.Email), ("ttl", .num 0), ("max_ttl", .num 0)], ?_, ?_⟩
    · rw [hst]
      simp [List.lookup]
    · simp [keys]
  · intro m hm
    rw [pathUsersRead_keys env _ req m hm]
    decide

/-- C3 at two creates of `alice` with the passwords `p` and `q`: the outcome
and the storage are the same, and the stored entry has no `password`. -/
theorem createJenkinsUser_password_witness :
    (∀ c, testEnv.CreateUser c "alice" "q" "Alice A" "a@x.com"
        = testEnv.CreateUser c "alice" "p" "Alice A" "a@x.com")
    ∧ (createJenkinsUser testEnv testState ⟨"alice", "q", "Alice A", "a@x.com", 0, 0⟩).2.storage
      = (createJenkinsUser testEnv testState ⟨"alice", "p", "Alice A", "a@x.com", 0, 0⟩).2.storage
    ∧ ∃ entry,
      (createJenkinsUser testEnv testState
          ⟨"alice", "p", "Alice A", "a@x.com", 0, 0⟩).2.storage.lookup (getUserPath "alice")
        = some entry ∧ "password" ∉ keys entry :=
  ⟨fun _ => rfl,
   (createJenkinsUser_password testEnv testState ⟨"alice", "p", "Alice A", "a@x.com", 0, 0⟩ "q"
      ⟨.ReadOperation, getUserPath "alice", none⟩ (fun _ _ => rfl)).1,
   (createJenkinsUser_password testEnv testState ⟨"alice", "p", "Alice A", "a@x.com", 0, 0⟩ "q"
      ⟨.ReadOperation, getUserPath "alice", none⟩ (fun _ _ => rfl)).2.2.1 (by decide)⟩

/-! ## Deleting a user whose downstream deletion fails -/

/-- Either the downstream `DeleteUser` fails for the client of the backend, or
the backend has a client for which it succeeds. -/
theorem deleteUser_first (env : Env) (w : State) (u : String) :
    (∀ c, (getClient env w).1 = .ok c → env.DeleteUser c u ≠ none) ∨
      ∃ c, (getClient env w).1 = .ok c ∧ env.DeleteUser c u = none := by
  by_cases h : ∃ c, (getClient env w).1 = .ok c ∧ env.DeleteUser c u = none
  · exact Or.inr h
  · left
    intro c hc hn
    exact h ⟨c, hc, hn⟩

/-- C4: when the downstream `DeleteUser` of the user fails, the delete request
on `users/u` and the revoke of a lease of `u` both return an error and leave
the storage as it was, so that a record at `users/u` is still there; and
whenever one of them has changed the storage, the downstream `DeleteUser` had
succeeded. -/
theorem delete_keeps_record (env : Env) (w : State) (u : String) (op : Operation)
    (sec : Option Secret) (secret : Secret)
    (hname : secret.InternalData.lookup "username" = some (.str u)) :
    ((∀ c, (getClient env w).1 = .ok c → env.DeleteUser c u ≠ none) →
      (∃ resp e, (pathUsersDelete env w ⟨op, getUserPath u, sec⟩).1 = .returned resp (some e))
      ∧ (pathUsersDelete env w ⟨op, getUserPath u, sec⟩).2.storage = w.storage
      ∧ (pathUsersDelete env w ⟨op, getUserPath u, sec⟩).2.storage.lookup (getUserPath u)
          = w.storage.lookup (getUserPath u)
      ∧ (∃ e, (userRevoke env w secret).1 = .returned none (some e))
      ∧ (userRevoke env w secret).2.storage = w.storage
      ∧ (userRevoke env w secret).2.storage.lookup (getUserPath u)
          = w.storage.lookup (getUserPath u))
    ∧ ((pathUsersDelete env w ⟨op, getUserPath u, sec⟩).2.storage ≠ w.storage →
        ∃ c, (getClient env w).1 = .ok c ∧ env.DeleteUser c u = none)
    ∧ ((userRevoke env w secret).2.storage ≠ w.storage →
        ∃ c, (getClient env w).1 = .ok c ∧ env.DeleteUser c u = none) := by
  have hst := getClient_storage env w
  have key : (∀ c, (getClient env w).1 = .ok c → env.DeleteUser c u ≠ none) →
      (∃ resp e, (pathUsersDelete env w ⟨op, getUserPath u, sec⟩).1 = .returned resp (some e))
      ∧ (pathUsersDelete env w ⟨op, getUserPath u, sec⟩).2.storage = w.storage
      ∧ (∃ e, (userRevoke env w secret).1 = .returned none (some e))
      ∧ (userRevoke env w secret).2.storage = w.storage := by
    intro hfail
    unfold pathUsersDelete userRevoke
    simp only [parseUsernameFromPath_getUserPath, hname]
    rcases hg : getClient env w with ⟨r, w1⟩
    rw [hg] at hst
    simp only at hst
    cases r with
    | error e => exact ⟨⟨_, _, rfl⟩, hst, ⟨_, rfl⟩, hst⟩
    | ok c =>
      have hc : (getClient env w).1 = .ok c := by rw [hg]
      simp only [deleteUser]
      cases hd : env.DeleteUser c u with
      | none => exact absurd hd (hfail c hc)
      | some e => exact ⟨⟨_, _, rfl⟩, hst, ⟨_, rfl⟩, hst⟩
  refine ⟨fun hfail => ?_, fun hne => ?_, fun hne => ?_⟩
  · obtain ⟨h1, h2, h3, h4⟩ := key hfail
    exact ⟨h1, h2, by rw [h2], h3, h4, by rw [h4]⟩
  · rcases deleteUser_first env w u with hfail | hsucc
    · exact absurd (key hfail).2.1 hne
    · exact hsucc
  · rcases deleteUser_first env w u with hfail | hsucc
    · exact absurd (key hfail).2.2.2 hne
    · exact hsucc

/-- C4 at the test user and a Jenkins server that refuses the deletion: the
delete and the revoke return an error and the record stays. -/
theorem delete_keeps_record_witness :
    (testStateWithUser.storage.lookup (getUserPath "testUsername")).isSome = true
    ∧ (∃ resp e, (pathUsersDelete refusingEnv testStateWithUser
        ⟨.DeleteOperation, getUserPath "testUsername", none⟩).1 = .returned resp (some e))
    ∧ (pathUsersDelete refusingEnv testStateWithUser
        ⟨.DeleteOperation, getUserPath "testUsername", none⟩).2.storage
      = testStateWithUser.storage
    ∧ (userRevoke refusingEnv testStateWithUser
        (testLease [("username", .str "testUsername")])).2.storage
      = testStateWithUser.storage :=
  ⟨by decide,
   ((delete_keeps_record refusingEnv testStateWithUser "testUsername" .DeleteOperation none
      (testLease [("username", .str "testUsername")]) (by decide)).1
      (fun _ _ h => by cases h)).1,
   ((delete_keeps_record refusingEnv testStateWithUser "testUsername" .DeleteOperation none
      (testLease [("username", .str "testUsername")]) (by decide)).1
      (fun _ _ h => by cases h)).2.1,
   ((delete_keeps_record refusingEnv testStateWithUser "testUsername" .DeleteOperation none
      (testLease [("username", .str "testUsername")]) (by decide)).1
      (fun _ _ h => by cases h)).2.2.2.2.1⟩

/-! ## The lease of a new credential -/

/-- C5: a user create and a token create that succeeded, with a requested
`ttl` of `T` seconds and `max_ttl` of `M` seconds (whole seconds that fit a
`time.Duration`, as the duration fields of the request give them), return a
lease whose TTL is `T` seconds if `T > 0` and else the TTL of the default
response of the host, and whose MaxTTL is `M` seconds if `M > 0` and else the
MaxTTL of the default response. -/
theorem create_lease (env : Env) (w : State) (u p f e n : String) (T M : Int)
    (op : Operation) (sec : Option Secret)
    (hT : -(2 ^ 63) ≤ T * 1000000000 ∧ T * 1000000000 < 2 ^ 63)
    (hM : -(2 ^ 63) ≤ M * 1000000000 ∧ M * 1000000000 < 2 ^ 63) :
    ((pathUsersWrite env w ⟨op, getUserPath u, sec⟩ ⟨p, f, e, T, M⟩).1.succeeded = true →
      ∃ s, (pathUsersWrite env w ⟨op, getUserPath u, sec⟩ ⟨p, f, e, T, M⟩).1.secret = some s
        ∧ s.TTL = (if T > 0 then T * Second else env.defaultLease.TTL)
        ∧ s.MaxTTL = (if M > 0 then M * Second else env.defaultLease.MaxTTL))
    ∧ ((pathTokensRead env w ⟨op, tokensPrefix ++ "/" ++ n, sec⟩ ⟨T, M⟩).1.succeeded = true →
      ∃ s, (pathTokensRead env w ⟨op, tokensPrefix ++ "/" ++ n, sec⟩ ⟨T, M⟩).1.secret = some s
        ∧ s.TTL = (if T > 0 then T * Second else env.defaultLease.TTL)
        ∧ s.MaxTTL = (if M > 0 then M * Second else env.defaultLease.MaxTTL)) := by
  have hTs := seconds_of_range T hT.1 hT.2
  have hMs := seconds_of_range M hM.1 hM.2
  have hTpos : (T * Second > 0) ↔ T > 0 := by unfold Second; omega
  have hMpos : (M * Second > 0) ↔ M > 0 := by unfold Second; omega
  constructor
  · intro hok
    obtain ⟨-, -, heq⟩ := pathUsersWrite_succeeded env w _ _ hok
    rw [heq] at hok ⊢
    obtain ⟨c, user, hc, hd, hp⟩ := createJenkinsUser_succeeded env _ _ hok
    obtain ⟨s, hs, h1, h2, -, -⟩ := createJenkinsUser_run env _ _ c user hc hd hp
    refine ⟨s, by rw [hs]; rfl, ?_, ?_⟩
    · rw [h1]
      simp only [hTs, hTpos]
    · rw [h2]
      simp only [hMs, hMpos]
  · intro hok
    unfold pathTokensRead at hok ⊢
    obtain ⟨c, token, hc, hd⟩ := createUserToken_succeeded env _ _ _ hok
    obtain ⟨s, hs, h1, h2, -, -⟩ := createUserToken_run env _ _
      ⟨"", "", "", durationMul (int64 T) Second, durationMul (int64 M) Second⟩ c token hc hd
    refine ⟨s, by rw [hs]; rfl, ?_, ?_⟩
    · rw [h1]
      simp only [hTs, hTpos]
    · rw [h2]
      simp only [hMs, hMpos]

/-- C5 at the test configuration: a user and a token requested with a `ttl`
of 60 seconds and no `max_ttl` get a lease of 60 seconds and the default
MaxTTL. -/
theorem create_lease_witness :
    (∃ s, (pathUsersWrite testEnv testState ⟨.CreateOperation, getUserPath "alice", none⟩
          ⟨"p", "Alice A", "a@x.com", 60, 0⟩).1.secret = some s
        ∧ s.TTL = (if (60 : Int) > 0 then 60 * Second else testEnv.defaultLease.TTL)
        ∧ s.MaxTTL = (if (0 : Int) > 0 then 0 * Second else testEnv.defaultLease.MaxTTL))
    ∧ (∃ s, (pathTokensRead testEnv testState
          ⟨.CreateOperation, tokensPrefix ++ "/" ++ "alice-token", none⟩ ⟨60, 0⟩).1.secret = some s
        ∧ s.TTL = (if (60 : Int) > 0 then 60 * Second else testEnv.defaultLease.TTL)
        ∧ s.MaxTTL = (if (0 : Int) > 0 then 0 * Second else testEnv.defaultLease.MaxTTL)) :=
  ⟨(create_lease testEnv testState "alice" "p" "Alice A" "a@x.com" "alice-token" 60 0
      .CreateOperation none (by decide) (by decide)).1 (by decide),
   (create_lease testEnv testState "alice" "p" "Alice A" "a@x.com" "alice-token" 60 0
      .CreateOperation none (by decide) (by decide)).2 (by decide)⟩

/-! ## The ttl recorded at creation -/

/-- C6, at a user and a token requested with a `ttl` of 60 seconds and a
`max_ttl` of 120 seconds: both creates succeed and the lease gets the TTL of
60 seconds, yet the internal data of the lease carry a `ttl` and a `max_ttl`
of zero, and so does the record stored at `users/alice`. -/
theorem create_records_zero_ttl :
    (pathUsersWrite testEnv testState ⟨.CreateOperation, getUserPath "alice", none⟩
        ⟨"p", "Alice A", "a@x.com", 60, 120⟩).1.succeeded = true
    ∧ (pathUsersWrite testEnv testState ⟨.CreateOperation, getUserPath "alice", none⟩
        ⟨"p", "Alice A", "a@x.com", 60, 120⟩).1.secret.map (fun s => s.TTL) = some (60 * Second)
    ∧ (pathUsersWrite testEnv testState ⟨.CreateOperation, getUserPath "alice", none⟩
        ⟨"p", "Alice A", "a@x.com", 60, 120⟩).1.secret.map
          (fun s => (s.InternalData.lookup "ttl", s.InternalData.lookup "max_ttl"))
        = some (some (.duration 0), some (.duration 0))
    ∧ ((pathUsersWrite testEnv testState ⟨.CreateOperation, getUserPath "alice", none⟩
        ⟨"p", "Alice A", "a@x.com", 60, 120⟩).2.storage.lookup (getUserPath "alice")).map
          (fun r => (r.lookup "ttl", r.lookup "max_ttl"))
        = some (some (.num 0), some (.num 0))
    ∧ (pathTokensRead testEnv testState
        ⟨.ReadOperation, tokensPrefix ++ "/" ++ "alice-token", none⟩ ⟨60, 120⟩).1.succeeded = true
    ∧ (pathTokensRead testEnv testState
        ⟨.ReadOperation, tokensPrefix ++ "/" ++ "alice-token", none⟩ ⟨60, 120⟩).1.secret.map
          (fun s => (s.InternalData.lookup "ttl", s.InternalData.lookup "max_ttl"))
        = some (some (.duration 0), some (.duration 0)) := by
  decide

/-! ## The response of a token create -/

/-- C7: a token create on `tokens/n` that succeeded called the downstream
`GenerateAPIToken` with the name `n`, and its response has as data exactly
the entries `token`, the value the downstream returned, `token_name: n` and
`token_id`, the ID the downstream returned, and as internal data of the lease
that same `token_id` and the `token_name` `n`. -/
theorem pathTokensRead_response (env : Env) (w : State) (n : String) (T M : Int)
    (op : Operation) (sec : Option Secret)
    (hok : (pathTokensRead env w ⟨op, tokensPrefix ++ "/" ++ n, sec⟩ ⟨T, M⟩).1.succeeded
      = true) :
    ∃ c token s, (getClient env w).1 = .ok c ∧ env.GenerateAPIToken c n = .ok token
      ∧ (pathTokensRead env w ⟨op, tokensPrefix ++ "/" ++ n, sec⟩ ⟨T, M⟩).1
        = .returned (some ⟨some s, [("token", .str token.Value), ("token_name", .str n),
            ("token_id", .str token.UUID)]⟩) none
      ∧ s.InternalData.lookup "token_id" = some (.str token.UUID)
      ∧ s.InternalData.lookup "token_name" = some (.str n) := by
  unfold pathTokensRead at hok ⊢
  obtain ⟨c, token, hc, hd⟩ := createUserToken_succeeded env _ _ _ hok
  obtain ⟨s, hs, -, -, hi, -⟩ := createUserToken_run env _ _
    ⟨"", "", "", durationMul (int64 T) Second, durationMul (int64 M) Second⟩ c token hc hd
  simp only [TrimPrefix_append] at hd hs hi
  refine ⟨c, token, s, hc, hd, hs, ?_, ?_⟩
  · rw [hi]
    rfl
  · rw [hi]
    rfl

/-- C7 at the token of the tests. -/
theorem pathTokensRead_response_witness :
    ∃ c token s, (getClient testEnv testState).1 = .ok c
      ∧ testEnv.GenerateAPIToken c "test-user-token" = .ok token
      ∧ (pathTokensRead testEnv testState
          ⟨.ReadOperation, tokensPrefix ++ "/" ++ "test-user-token", none⟩ ⟨0, 0⟩).1
        = .returned (some ⟨some s, [("token", .str token.Value),
            ("token_name", .str "test-user-token"), ("token_id", .str token.UUID)]⟩) none
      ∧ s.InternalData.lookup "token_id" = some (.str token.UUID)
      ∧ s.InternalData.lookup "token_name" = some (.str "test-user-token") :=
  pathTokensRead_response testEnv testState "test-user-token" 0 0 .ReadOperation none
    (by decide)

/-! ## Renew -/

/-- C8, as stated, fails at a lease whose internal data have a `ttl` of half a
second and a `max_ttl` of zero: the reference definition sets the TTL to half
a second, `userRenew` and `tokenRenew` drop the fraction and leave the TTL as
it was. -/
theorem renew_not_renewSpec :
    renewSpec testState (testLease [("ttl", .float64 half), ("max_ttl", .float64 0)])
        (userRenew testEnv testState
          (testLease [("ttl", .float64 half), ("max_ttl", .float64 0)])) = false
    ∧ renewSpec testState (testLease [("ttl", .float64 half), ("max_ttl", .float64 0)])
        (tokenRenew testEnv testState
          (testLease [("ttl", .float64 half), ("max_ttl", .float64 0)])) = false
    ∧ (userRenew testEnv testState
          (testLease [("ttl", .float64 half), ("max_ttl", .float64 0)])).2.1
        = testLease [("ttl", .float64 half), ("max_ttl", .float64 0)] := by
  decide

/-- C8 as amended: `tokenRenew` is `userRenew`; when `ttl` or `max_ttl` is
absent from the internal data the call returns an error and leaves the lease
and the state as they were; when both are numbers `t` and `m` it returns the
same lease, TTL set to the duration computed from `t` (the fraction of `t`
dropped, times one second in 64-bit arithmetic) exactly when that duration is
positive and MaxTTL likewise from `m`, every other field of the lease and the
whole state unchanged; for a whole number `n` of seconds that fits a duration
the computed duration is `n` seconds, positive exactly when `n > 0`; and so
on whole numbers of seconds that fit a duration the result meets the
reference definition. -/
theorem renew_amended (env : Env) (w : State) (secret : Secret) :
    tokenRenew env w secret = userRenew env w secret
    ∧ ((secret.InternalData.lookup "ttl" = none ∨ secret.InternalData.lookup "max_ttl" = none) →
        ∃ e, userRenew env w secret = (.returned none (some e), secret, w))
    ∧ (∀ t m, secret.InternalData.lookup "ttl" = some (.float64 t) →
        secret.InternalData.lookup "max_ttl" = some (.float64 m) →
        userRenew env w secret
          = (.returned (some ⟨some { secret with
                TTL := if durationMul (float64ToDuration env t) Second > 0
                  then durationMul (float64ToDuration env t) Second else secret.TTL,
                MaxTTL := if durationMul (float64ToDuration env m) Second > 0
                  then durationMul (float64ToDuration env m) Second else secret.MaxTTL }, []⟩)
              none,
            { secret with
                TTL := if durationMul (float64ToDuration env t) Second > 0
                  then durationMul (float64ToDuration env t) Second else secret.TTL,
                MaxTTL := if durationMul (float64ToDuration env m) Second > 0
                  then durationMul (float64ToDuration env m) Second else secret.MaxTTL },
            w))
    ∧ (∀ n : Int, -(2 ^ 63) ≤ n * 1000000000 → n * 1000000000 < 2 ^ 63 →
        durationMul (float64ToDuration env (n : ℚ)) Second = n * Second
          ∧ (durationMul (float64ToDuration env (n : ℚ)) Second > 0 ↔ n > 0))
    ∧ (∀ n k : Int, -(2 ^ 63) ≤ n * 1000000000 → n * 1000000000 < 2 ^ 63 →
        -(2 ^ 63) ≤ k * 1000000000 → k * 1000000000 < 2 ^ 63 →
        secret.InternalData.lookup "ttl" = some (.float64 n) →
        secret.InternalData.lookup "max_ttl" = some (.float64 k) →
        renewSpec w secret (userRenew env w secret) = true) := by
  have whole : ∀ n : Int, -(2 ^ 63) ≤ n * 1000000000 → n * 1000000000 < 2 ^ 63 →
      durationMul (float64ToDuration env (n : ℚ)) Second = n * Second
        ∧ (durationMul (float64ToDuration env (n : ℚ)) Second > 0 ↔ n > 0) := by
    intro n h1 h2
    have hn : float64ToDuration env (n : ℚ) = n := by
      unfold float64ToDuration
      have : ((n : ℚ).num.tdiv ((n : ℚ).den : Int)) = n := by simp
      simp only [this]
      rw [if_pos]
      constructor <;> omega
    rw [hn]
    have hmul : durationMul n Second = n * Second := by
      unfold durationMul Second
      exact int64_of_range _ h1 h2
    rw [hmul]
    refine ⟨rfl, ?_⟩
    unfold Second
    omega
  have numeric : ∀ t m, secret.InternalData.lookup "ttl" = some (.float64 t) →
      secret.InternalData.lookup "max_ttl" = some (.float64 m) →
      userRenew env w secret
        = (.returned (some ⟨some { secret with
              TTL := if durationMul (float64ToDuration env t) Second > 0
                then durationMul (float64ToDuration env t) Second else secret.TTL,
              MaxTTL := if durationMul (float64ToDuration env m) Second > 0
                then durationMul (float64ToDuration env m) Second else secret.MaxTTL }, []⟩)
            none,
          { secret with
              TTL := if durationMul (float64ToDuration env t) Second > 0
                then durationMul (float64ToDuration env t) Second else secret.TTL,
              MaxTTL := if durationMul (float64ToDuration env m) Second > 0
                then durationMul (float64ToDuration env m) Second else secret.MaxTTL },
          w) := by
    intro t m ht hm
    unfold userRenew
    rw [ht, hm]
    simp only
    by_cases h1 : durationMul (float64ToDuration env t) Second > 0 <;>
      by_cases h2 : durationMul (float64ToDuration env m) Second > 0 <;>
      simp [h1, h2]
  refine ⟨rfl, ?_, numeric, whole, ?_⟩
  · intro h
    unfold userRenew
    rcases h with h | h
    · rw [h]
      exact ⟨_, rfl⟩
    · rw [h]
      cases secret.InternalData.lookup "ttl" with
      | none => exact ⟨_, rfl⟩
      | some a => exact ⟨_, rfl⟩
  · intro n k hn1 hn2 hk1 hk2 ht hm
    obtain ⟨hnv, hnp⟩ := whole n hn1 hn2
    obtain ⟨hkv, hkp⟩ := whole k hk1 hk2
    have hsn : secondsSpec (n : ℚ) = n * Second := by simp [secondsSpec, Second]
    have hsk : secondsSpec (k : ℚ) = k * Second := by simp [secondsSpec, Second]
    have hqn : ((n : ℚ) > 0) ↔ n > 0 := by simp
    have hqk : ((k : ℚ) > 0) ↔ k > 0 := by simp
    rw [numeric n k ht hm]
    rw [hnv] at hnp
    rw [hkv] at hkp
    unfold renewSpec
    rw [ht, hm]
    simp only [hnv, hkv, hsn, hsk, hqn, hqk, hnp, hkp]
    by_cases h1 : n > 0 <;> by_cases h2 : k > 0 <;>
      simp [h1, h2]

/-- C8 as amended, at a lease with a `ttl` of 60 seconds and a `max_ttl` of
zero: the renew sets the TTL to 60 seconds and leaves the MaxTTL. -/
theorem renew_amended_witness :
    (testLease [("ttl", .float64 60), ("max_ttl", .float64 0)]).InternalData.lookup "ttl"
        = some (.float64 60)
    ∧ (userRenew testEnv testState
        (testLease [("ttl", .float64 60), ("max_ttl", .float64 0)])).2.1.TTL = 60 * Second
    ∧ (userRenew testEnv testState
        (testLease [("ttl", .float64 60), ("max_ttl", .float64 0)])).2.1.MaxTTL = 0 := by
  have h := (renew_amended testEnv testState
    (testLease [("ttl", .float64 60), ("max_ttl", .float64 0)])).2.2.1 60 0 (by decide)
    (by decide)
  refine ⟨by decide, ?_, ?_⟩
  · rw [h]
    decide
  · rw [h]
    decide

/-- C9: when `ttl` and `max_ttl` are both present in the internal data and one
of them is not a float, `userRenew` and `tokenRenew` do not return: they abort
with the panic of the failed type assertion (the lease and the state are
untouched). -/
theorem renew_panics (env : Env) (w : State) (secret : Secret) (a b : Value)
    (ha : secret.InternalData.lookup "ttl" = some a)
    (hb : secret.InternalData.lookup "max_ttl" = some b)
    (hnot : (∀ t, a ≠ .float64 t) ∨ (∀ m, b ≠ .float64 m)) :
    ∃ msg, userRenew env w secret = (.panicked msg, secret, w)
      ∧ tokenRenew env w secret = (.panicked msg, secret, w) := by
  unfold userRenew tokenRenew
  rw [ha, hb]
  cases a with
  | float64 t =>
    cases b with
    | float64 m =>
      rcases hnot with h | h
      · exact absurd rfl (h t)
      · exact absurd rfl (h m)
    | _ => exact ⟨_, rfl, rfl⟩
  | _ => exact ⟨_, rfl, rfl⟩

/-- C9 at a `ttl` that is a string, and at the durations that the create puts
in the internal data: the renew panics. -/
theorem renew_panics_witness :
    (∃ msg, userRenew testEnv testState
        (testLease [("ttl", .str "60"), ("max_ttl", .float64 0)])
      = (.panicked msg, testLease [("ttl", .str "60"), ("max_ttl", .float64 0)], testState)
      ∧ tokenRenew testEnv testState
        (testLease [("ttl", .str "60"), ("max_ttl", .float64 0)])
      = (.panicked msg, testLease [("ttl", .str "60"), ("max_ttl", .float64 0)], testState))
    ∧ (userRenew testEnv testState
        (testLease [("ttl", .duration 0), ("max_ttl", .duration 0)])).1
      = .panicked "interface conversion: ttl is not float64" :=
  ⟨renew_panics testEnv testState (testLease [("ttl", .str "60"), ("max_ttl", .float64 0)])
      (.str "60") (.float64 0) (by decide) (by decide) (Or.inl (fun _ h => by cases h)),
   by decide⟩

/-! ## Revoke and the identifying field -/

/-- C10, as stated, fails at a lease without the identifying field: from a
state with a record at the key `users/`, the revoke of a user lease with no
`username` returns no error, calls the downstream `DeleteUser` with the empty
name and deletes the record at `users/`; the revoke of a token lease with no
`token_id` returns no error and calls the downstream `RevokeAPIToken` with the
empty ID. -/
theorem revoke_missing_identifier :
    (userRevoke testEnv { testState with storage := ("users/", []) :: testState.storage }
        (testLease [])).1 = .returned none none
    ∧ (userRevoke testEnv { testState with storage := ("users/", []) :: testState.storage }
        (testLease [])).2.downstream
      = [.DeleteUser ⟨"http://localhost:8080", "admin", "admin"⟩ ""]
    ∧ (userRevoke testEnv { testState with storage := ("users/", []) :: testState.storage }
        (testLease [])).2.storage = testState.storage
    ∧ (tokenRevoke testEnv testState (testLease [])).1 = .returned none none
    ∧ (tokenRevoke testEnv testState (testLease [])).2.downstream
      = [.RevokeAPIToken ⟨"http://localhost:8080", "admin", "admin"⟩ ""] := by
  decide

/-- C10 as amended: a revoke whose identifying field (`username` of a user
lease, `token_id` of a token lease) is present and not a string returns an
error, makes no downstream call and leaves the storage as it was; a revoke
whose identifying field is absent runs as the revoke of the same lease with
the empty string in that field. -/
theorem revoke_identifier (env : Env) (w : State) (secret : Secret) :
    (∀ v, secret.InternalData.lookup "username" = some v → (∀ s, v ≠ .str s) →
      (∃ e, (userRevoke env w secret).1 = .returned none (some e))
        ∧ (userRevoke env w secret).2.downstream = w.downstream
        ∧ (userRevoke env w secret).2.storage = w.storage)
    ∧ (∀ v, secret.InternalData.lookup "token_id" = some v → (∀ s, v ≠ .str s) →
      (∃ e, (tokenRevoke env w secret).1 = .returned none (some e))
        ∧ (tokenRevoke env w secret).2.downstream = w.downstream
        ∧ (tokenRevoke env w secret).2.storage = w.storage)
    ∧ (secret.InternalData.lookup "username" = none →
      userRevoke env w secret
        = userRevoke env w
            { secret with InternalData := ("username", .str "") :: secret.InternalData })
    ∧ (secret.InternalData.lookup "token_id" = none →
      tokenRevoke env w secret
        = tokenRevoke env w
            { secret with InternalData := ("token_id", .str "") :: secret.InternalData }) := by
  have hst := getClient_storage env w
  have hds := getClient_downstream env w
  refine ⟨?_, ?_, ?_, ?_⟩
  · intro v hv hns
    unfold userRevoke
    rw [hv]
    rcases hg : getClient env w with ⟨r, w1⟩
    rw [hg] at hst hds
    simp only at hst hds
    cases r with
    | error e => exact ⟨⟨_, rfl⟩, hds, hst⟩
    | ok c =>
      cases v with
      | str s => exact absurd rfl (hns s)
      | _ => exact ⟨⟨_, rfl⟩, hds, hst⟩
  · intro v hv hns
    unfold tokenRevoke
    rw [hv]
    rcases hg : getClient env w with ⟨r, w1⟩
    rw [hg] at hst hds
    simp only at hst hds
    cases r with
    | error e => exact ⟨⟨_, rfl⟩, hds, hst⟩
    | ok c =>
      cases v with
      | str s => exact absurd rfl (hns s)
      | _ => exact ⟨⟨_, rfl⟩, hds, hst⟩
  · intro hnone
    unfold userRevoke
    rw [hnone]
    rfl
  · intro hnone
    unfold tokenRevoke
    rw [hnone]
    rfl

/-- C10 as amended, at leases whose identifying field is a number: both
revokes return an error and call nothing downstream. -/
theorem revoke_identifier_witness :
    (testLease [("username", .float64 0), ("token_id", .float64 0)]).InternalData.lookup
        "username" = some (.float64 0)
    ∧ (∃ e, (userRevoke testEnv testStateWithUser
        (testLease [("username", .float64 0), ("token_id", .float64 0)])).1
          = .returned none (some e))
    ∧ (userRevoke testEnv testStateWithUser
        (testLease [("username", .float64 0), ("token_id", .float64 0)])).2.downstream
          = testStateWithUser.downstream
    ∧ (∃ e, (tokenRevoke testEnv testStateWithUser
        (testLease [("username", .float64 0), ("token_id", .float64 0)])).1
          = .returned none (some e)) :=
  ⟨by decide,
   ((revoke_identifier testEnv testStateWithUser
      (testLease [("username", .float64 0), ("token_id", .float64 0)])).1 (.float64 0)
      (by decide) (fun _ h => by cases h)).1,
   ((revoke_identifier testEnv testStateWithUser
      (testLease [("username", .float64 0), ("token_id", .float64 0)])).1 (.float64 0)
      (by decide) (fun _ h => by cases h)).2.1,
   ((revoke_identifier testEnv testStateWithUser
      (testLease [("username", .float64 0), ("token_id", .float64 0)])).2.1 (.float64 0)
      (by decide) (fun _ h => by cases h)).1⟩

/-! ## The cached client -/

theorem getClient_cached (env : Env) (w : State) (c : jenkinsClient) (hc : w.client = some c) :
    getClient env w = (.ok c, w) := by
  unfold getClient
  rw [hc]

/-- With an empty cache and a readable storage, `getClient` is `newClient` on
the stored configuration. -/
theorem getClient_of_config (env : Env) (w : State) (cfg : jenkinsConfig)
    (hc : w.client = none) (hg : env.getErr configPrefix = none)
    (hs : storedConfig w = some cfg) :
    getClient env w
      = match newClient cfg with
        | .error e => (.error e, w.record (.storageGet configPrefix))
        | .ok c =>
          (.ok c, { ((w.record (.storageGet configPrefix)).record
              (.CreateJenkins cfg.URL cfg.Username cfg.Password)) with client := some c }) := by
  unfold storedConfig at hs
  unfold getClient getConfig storageGet
  rw [hc, hg]
  simp only
  cases hl : List.lookup configPrefix w.storage with
  | none => rw [hl] at hs; simp at hs
  | some entry =>
    rw [hl] at hs
    simp only at hs ⊢
    cases hd : decodeConfig entry with
    | error e => rw [hd] at hs; simp [Except.toOption] at hs
    | ok cfg2 =>
      rw [hd] at hs
      simp only [Except.toOption, Option.some.injEq] at hs
      subst hs
      simp only [Option.getD]
      cases newClient cfg2 with
      | error e => simp [State.record, hc]
      | ok c => rfl

/-- With an empty cache and no stored configuration that decodes, `getClient`
fails and the cache stays empty. -/
theorem getClient_no_config (env : Env) (w : State)
    (hc : w.client = none) (hs : storedConfig w = none) :
    ∃ e, (getClient env w).1 = .error e ∧ (getClient env w).2.client = none := by
  unfold storedConfig at hs
  unfold getClient getConfig storageGet
  rw [hc]
  simp only
  cases env.getErr configPrefix with
  | some e => exact ⟨_, rfl, hc⟩
  | none =>
    simp only
    cases hl : List.lookup configPrefix w.storage with
    | none => exact ⟨_, rfl, rfl⟩
    | some entry =>
      rw [hl] at hs
      simp only at hs ⊢
      cases hd : decodeConfig entry with
      | error e => exact ⟨_, rfl, hc⟩
      | ok cfg2 => rw [hd] at hs; simp [Except.toOption] at hs

theorem newClient_ok_iff (cfg : jenkinsConfig) (c : jenkinsClient) :
    newClient cfg = .ok c ↔
      cfg.Username ≠ "" ∧ cfg.Password ≠ "" ∧ cfg.URL ≠ "" ∧ c = clientOf cfg := by
  unfold newClient clientOf
  by_cases h1 : cfg.Username = "" <;> by_cases h2 : cfg.Password = "" <;>
    by_cases h3 : cfg.URL = "" <;> simp [h1, h2, h3, eq_comm]

/-- C18: when the cache holds a client `c`, `getClient` returns `c` and leaves
the whole state, trace and cache included, as it was, so it reads no storage
and builds no client.  When the cache is empty and the storage answers the
read of `config`, `getClient` returns a client exactly when the stored
configuration has a non-empty username, password and URL; the client is then
the one built from that configuration, it is the one now cached, and the
trace has grown by the read of `config` and the construction; otherwise
`getClient` returns an error and the cache remains empty. -/
theorem getClient_memo (env : Env) (w : State) :
    (∀ c, w.client = some c → getClient env w = (.ok c, w))
    ∧ (w.client = none → env.getErr configPrefix = none →
        (∀ c, (getClient env w).1 = .ok c ↔
          ∃ cfg, storedConfig w = some cfg ∧ cfg.Username ≠ "" ∧ cfg.Password ≠ ""
            ∧ cfg.URL ≠ "" ∧ c = clientOf cfg)
        ∧ (∀ c, (getClient env w).1 = .ok c →
            (getClient env w).2.client = some c
            ∧ (getClient env w).2.log
              = w.log ++ [.storageGet configPrefix, .CreateJenkins c.URL c.Username c.Password]
            ∧ (getClient env w).2.storage = w.storage)
        ∧ ((∀ c, (getClient env w).1 ≠ .ok c) →
            (∃ e, (getClient env w).1 = .error e) ∧ (getClient env w).2.client = none)) := by
  refine ⟨getClient_cached env w, fun hc hg => ?_⟩
  cases hs : storedConfig w with
  | none =>
    obtain ⟨e, he, hcl⟩ := getClient_no_config env w hc hs
    refine ⟨fun c => ?_, fun c hok => ?_, fun _ => ⟨⟨e, he⟩, hcl⟩⟩
    · rw [he]
      simp
    · rw [he] at hok
      cases hok
  | some cfg =>
    have hrun := getClient_of_config env w cfg hc hg hs
    cases hn : newClient cfg with
    | error e =>
      rw [hn] at hrun
      simp only at hrun
      have hno : ∀ c, ¬ (cfg.Username ≠ "" ∧ cfg.Password ≠ "" ∧ cfg.URL ≠ ""
          ∧ c = clientOf cfg) := by
        intro c h
        have := (newClient_ok_iff cfg c).2 h
        rw [hn] at this
        cases this
      refine ⟨fun c => ?_, fun c hok => ?_, fun _ => ?_⟩
      · rw [hrun]
        constructor
        · intro h
          cases h
        · rintro ⟨cfg2, h2, h⟩
          rw [Option.some.injEq] at h2
          subst h2
          exact absurd h (hno c)
      · rw [hrun] at hok
        cases hok
      · rw [hrun]
        exact ⟨⟨e, rfl⟩, hc⟩
    | ok c0 =>
      rw [hn] at hrun
      simp only at hrun
      have hc0 := (newClient_ok_iff cfg c0).1 hn
      refine ⟨fun c => ?_, fun c hok => ?_, fun hne => ?_⟩
      · rw [hrun]
        constructor
        · intro h
          simp only [Except.ok.injEq] at h
          subst h
          exact ⟨cfg, rfl, hc0⟩
        · rintro ⟨cfg2, h2, -, -, -, h⟩
          rw [Option.some.injEq] at h2
          subst h2
          rw [h, hc0.2.2.2]
      · rw [hrun] at hok ⊢
        simp only [Except.ok.injEq] at hok
        subst hok
        refine ⟨rfl, ?_, rfl⟩
        simp [State.record, hc0.2.2.2, clientOf]
      · exact absurd (by rw [hrun]) (hne c0)

/-- C18 at the test configuration: the first `getClient` builds the client of
the configuration and caches it, the second returns it from the cache. -/
theorem getClient_memo_witness :
    testState.client = none
    ∧ (getClient testEnv testState).1 = .ok (clientOf ⟨"admin", "admin", "http://localhost:8080", false⟩)
    ∧ getClient testEnv (getClient testEnv testState).2
      = (.ok (clientOf ⟨"admin", "admin", "http://localhost:8080", false⟩),
          (getClient testEnv testState).2) :=
  ⟨rfl,
   ((getClient_memo testEnv testState).2 rfl rfl).1 _ |>.2
      ⟨⟨"admin", "admin", "http://localhost:8080", false⟩, by decide, by decide, by decide,
        by decide, rfl⟩,
   (getClient_memo testEnv (getClient testEnv testState).2).1 _ (by decide)⟩

/-! ## Writing the configuration -/

theorem getConfig_eta (env : Env) (w : State) (r : Except Error (Option jenkinsConfig))
    (h : (getConfig env w).1 = r) :
    getConfig env w = (r, w.record (.storageGet configPrefix)) := by
  rw [← h, ← getConfig_state env w]

/-- A write whose read of the configuration fails returns that error. -/
theorem pathConfigWrite_read_error (env : Env) (w : State) (req : Request)
    (data : ConfigFieldData) (e : Error) (h : (getConfig env w).1 = .error e) :
    pathConfigWrite env w req data
      = (.returned none (some e), w.record (.storageGet configPrefix)) := by
  unfold pathConfigWrite
  rw [getConfig_eta env w _ h]

/-- A write for which the reference definition has no record to persist
returns an error after the read of the configuration. -/
theorem pathConfigWrite_fail (env : Env) (w : State) (req : Request) (data : ConfigFieldData)
    (stored : Option jenkinsConfig) (hs : (getConfig env w).1 = .ok stored)
    (hspec : configWriteSpec stored (decide (req.Operation = .CreateOperation)) data = none) :
    ∃ e, pathConfigWrite env w req data
      = (.returned none (some e), w.record (.storageGet configPrefix)) := by
  unfold pathConfigWrite
  rw [getConfig_eta env w _ hs]
  unfold configWriteSpec at hspec
  rcases data with ⟨du, dl, dp, dv⟩
  cases stored <;> cases du <;> cases dl <;> cases dp <;>
    by_cases hop : req.Operation = .CreateOperation <;>
    simp [hop] at hspec ⊢

/-- A write for which the reference definition has a record to persist and
whose `Storage.Put` fails returns that error. -/
theorem pathConfigWrite_put_error (env : Env) (w : State) (req : Request)
    (data : ConfigFieldData) (stored : Option jenkinsConfig) (cfg : jenkinsConfig) (e : Error)
    (hs : (getConfig env w).1 = .ok stored)
    (hspec : configWriteSpec stored (decide (req.Operation = .CreateOperation)) data = some cfg)
    (hp : env.putErr configPrefix = some e) :
    pathConfigWrite env w req data
      = (.returned none (some e),
          (w.record (.storageGet configPrefix)).record (.storagePut configPrefix)) := by
  unfold pathConfigWrite
  rw [getConfig_eta env w _ hs]
  unfold configWriteSpec at hspec
  rcases data with ⟨du, dl, dp, dv⟩
  cases stored <;> cases du <;> cases dl <;> cases dp <;>
    by_cases hop : req.Operation = .CreateOperation <;>
    simp [hop, storagePut, hp] at hspec ⊢

/-- A write for which the reference definition has a record to persist and
whose `Storage.Put` succeeds: the record is in the storage, and the rest of
the write is the validation. -/
theorem pathConfigWrite_persist (env : Env) (w : State) (req : Request)
    (data : ConfigFieldData) (stored : Option jenkinsConfig) (cfg : jenkinsConfig)
    (hs : (getConfig env w).1 = .ok stored)
    (hspec : configWriteSpec stored (decide (req.Operation = .CreateOperation)) data = some cfg)
    (hp : env.putErr configPrefix = none) :
    pathConfigWrite env w req data
      = if data.validate then
          match getClient env (afterConfigPut w cfg) with
          | (.error e, w3) => (.returned (some (ErrorResponse e)) (some e), w3)
          | (.ok client, w3) =>
            match env.Init client with
            | some e =>
              (.returned (some (ErrorResponse e)) (some e), reset (w3.record (.Init client)))
            | none => (.returned none none, reset (w3.record (.Init client)))
        else (.returned none none, reset (afterConfigPut w cfg)) := by
  unfold pathConfigWrite
  rw [getConfig_eta env w _ hs]
  unfold configWriteSpec at hspec
  rcases data with ⟨du, dl, dp, dv⟩
  cases stored <;> cases du <;> cases dl <;> cases dp <;>
    by_cases hop : req.Operation = .CreateOperation <;>
    simp [hop] at hspec <;>
    (subst hspec; simp [hop, storagePut, hp, afterConfigPut, State.record])

theorem decodeConfig_encodeConfig (cfg : jenkinsConfig) :
    decodeConfig (encodeConfig cfg) = .ok cfg := by
  rcases cfg with ⟨u, p, l, v⟩
  cases v <;> rfl

theorem storedConfig_afterConfigPut (w : State) (cfg : jenkinsConfig) :
    storedConfig (afterConfigPut w cfg) = some cfg := by
  simp [storedConfig, afterConfigPut, List.lookup, decodeConfig_encodeConfig, Except.toOption]

/-- A `getClient` that fails leaves the cache empty. -/
theorem getClient_error_client (env : Env) (w : State) (e : Error)
    (h : (getClient env w).1 = .error e) : (getClient env w).2.client = none := by
  unfold getClient at h ⊢
  cases hc : w.client with
  | some c => rw [hc] at h; cases h
  | none =>
    simp only
    have hs := getConfig_state env w
    rcases hgc : getConfig env w with ⟨r, w1⟩
    rw [hgc] at hs
    simp only at hs
    subst hs
    cases r with
    | error e => exact hc
    | ok cfg =>
      simp only
      cases hn : newClient _ with
      | error e2 => rfl
      | ok c =>
        rw [hc] at h
        simp only [hgc, hn] at h
        cases h

/-- A client that `getClient` returns from an empty cache is built, in this
call, from the configuration that the storage holds. -/
theorem getClient_fresh (env : Env) (w : State) (c : jenkinsClient)
    (hc : w.client = none) (hok : (getClient env w).1 = .ok c) :
    ∃ cfg, storedConfig w = some cfg ∧ newClient cfg = .ok c
      ∧ (getClient env w).2.client = some c
      ∧ (getClient env w).2.log
        = w.log ++ [.storageGet configPrefix, .CreateJenkins cfg.URL cfg.Username cfg.Password] := by
  cases hg : env.getErr configPrefix with
  | some e =>
    unfold getClient getConfig storageGet at hok
    rw [hc, hg] at hok
    cases hok
  | none =>
    cases hs : storedConfig w with
    | none =>
      obtain ⟨e, he, -⟩ := getClient_no_config env w hc hs
      rw [he] at hok
      cases hok
    | some cfg =>
      have hrun := getClient_of_config env w cfg hc hg hs
      cases hn : newClient cfg with
      | error e =>
        rw [hn] at hrun
        rw [hrun] at hok
        cases hok
      | ok c0 =>
        rw [hn] at hrun
        simp only at hrun
        rw [hrun] at hok ⊢
        simp only [Except.ok.injEq] at hok
        subst hok
        exact ⟨cfg, rfl, hn, rfl, by simp [State.record]⟩

/-- The cache is empty after a write that has persisted a configuration. -/
theorem pathConfigWrite_persist_client (env : Env) (w : State) (req : Request)
    (data : ConfigFieldData) (stored : Option jenkinsConfig) (cfg : jenkinsConfig)
    (hs : (getConfig env w).1 = .ok stored)
    (hspec : configWriteSpec stored (decide (req.Operation = .CreateOperation)) data = some cfg)
    (hp : env.putErr configPrefix = none) :
    (pathConfigWrite env w req data).2.client = none
      ∧ (pathConfigWrite env w req data).2.storage = (afterConfigPut w cfg).storage := by
  rw [pathConfigWrite_persist env w req data stored cfg hs hspec hp]
  have hst := getClient_storage env (afterConfigPut w cfg)
  cases data.validate with
  | false => exact ⟨rfl, rfl⟩
  | true =>
    simp only [if_true]
    rcases hg : getClient env (afterConfigPut w cfg) with ⟨r, w3⟩
    rw [hg] at hst
    cases r with
    | error e =>
      have := getClient_error_client env (afterConfigPut w cfg) e (by rw [hg])
      rw [hg] at this
      exact ⟨this, hst⟩
    | ok c =>
      simp only
      cases env.Init c <;> exact ⟨rfl, hst⟩

theorem lookup_filter_self {α : Type} (k : String) (l : List (String × α)) :
    List.lookup k (l.filter (fun kv => kv.1 != k)) = none := by
  induction l with
  | nil => rfl
  | cons a t ih =>
    by_cases h : a.1 = k
    · simp [List.filter_cons, h, ih]
    · have hk : (k == a.1) = false := by
        rw [beq_eq_false_iff_ne]
        exact fun h' => h h'.symm
      simp [List.filter_cons, h, List.lookup, hk, ih]

theorem writes_record_get (w : State) (key : String) :
    (w.record (.storageGet key)).writes = w.writes := by
  simp [State.writes, State.record, Event.isStorageWrite]

/-- C11: a configuration write that reached `Storage.Put`, the put succeeding,
returns with an empty cache, whatever `validate`, the construction of the
client and the probe did; a configuration delete whose `Storage.Delete`
succeeds returns with an empty cache and no stored configuration.  After
either, a client that the next `getClient` returns is built in that call (the
trace grows by the read of `config` and the construction) from the
configuration then in the storage, which has a non-empty username, password
and URL; and after the delete the next `getClient` fails. -/
theorem config_change_invalidates (env : Env) (w : State) (req : Request)
    (data : ConfigFieldData) :
    (env.putErr configPrefix = none →
      (pathConfigWrite env w req data).2.writes = w.writes ++ [.storagePut configPrefix] →
      (pathConfigWrite env w req data).2.client = none
      ∧ ∀ c, (getClient env (pathConfigWrite env w req data).2).1 = .ok c →
        ∃ cfg, storedConfig (pathConfigWrite env w req data).2 = some cfg
          ∧ cfg.Username ≠ "" ∧ cfg.Password ≠ "" ∧ cfg.URL ≠ "" ∧ c = clientOf cfg
          ∧ (getClient env (pathConfigWrite env w req data).2).2.log
            = (pathConfigWrite env w req data).2.log
              ++ [.storageGet configPrefix, .CreateJenkins cfg.URL cfg.Username cfg.Password])
    ∧ (env.deleteErr configPrefix = none →
      (pathConfigDelete env w).2.client = none
      ∧ storedConfig (pathConfigDelete env w).2 = none
      ∧ ∃ e, (getClient env (pathConfigDelete env w).2).1 = .error e) := by
  have fresh : ∀ w' : State, w'.client = none →
      ∀ c, (getClient env w').1 = .ok c →
        ∃ cfg, storedConfig w' = some cfg
          ∧ cfg.Username ≠ "" ∧ cfg.Password ≠ "" ∧ cfg.URL ≠ "" ∧ c = clientOf cfg
          ∧ (getClient env w').2.log
            = w'.log ++ [.storageGet configPrefix, .CreateJenkins cfg.URL cfg.Username cfg.Password] := by
    intro w' hc c hok
    obtain ⟨cfg, h1, h2, -, h4⟩ := getClient_fresh env w' c hc hok
    obtain ⟨a, b, d, e⟩ := (newClient_ok_iff cfg c).1 h2
    exact ⟨cfg, h1, a, b, d, e, h4⟩
  constructor
  · intro hp hput
    have hclient : (pathConfigWrite env w req data).2.client = none := by
      cases hgc : (getConfig env w).1 with
      | error e =>
        rw [pathConfigWrite_read_error env w req data e hgc] at hput
        simp [writes_record_get] at hput
      | ok stored =>
        cases hspec : configWriteSpec stored (decide (req.Operation = .CreateOperation)) data with
        | none =>
          obtain ⟨e, he⟩ := pathConfigWrite_fail env w req data stored hgc hspec
          rw [he] at hput
          simp [writes_record_get] at hput
        | some cfg => exact (pathConfigWrite_persist_client env w req data stored cfg hgc hspec hp).1
    exact ⟨hclient, fresh _ hclient⟩
  · intro hdel
    have hstate : (pathConfigDelete env w).2
        = reset { (w.record (.storageDelete configPrefix)) with
            storage := w.storage.filter (fun kv => kv.1 != configPrefix) } := by
      unfold pathConfigDelete storageDelete
      rw [hdel]
    have hclient : (pathConfigDelete env w).2.client = none := by rw [hstate]; rfl
    have hstored : storedConfig (pathConfigDelete env w).2 = none := by
      rw [hstate]
      simp [storedConfig, reset, lookup_filter_self]
    obtain ⟨e, he, -⟩ := getClient_no_config env _ hclient hstored
    exact ⟨hclient, hstored, e, he⟩

/-- C11 at a state whose cache holds a client: after an update of the
password, and after a delete, the cache is empty. -/
theorem config_change_invalidates_witness :
    cachedState.client = some (clientOf ⟨"admin", "admin", "http://localhost:8080", false⟩)
    ∧ (pathConfigWrite testEnv cachedState ⟨.UpdateOperation, configPrefix, none⟩
        ⟨none, none, some "new-password", true⟩).2.client = none
    ∧ (pathConfigDelete testEnv cachedState).2.client = none :=
  ⟨by decide,
   ((config_change_invalidates testEnv cachedState ⟨.UpdateOperation, configPrefix, none⟩
      ⟨none, none, some "new-password", true⟩).1 rfl (by decide)).1,
   ((config_change_invalidates testEnv cachedState ⟨.UpdateOperation, configPrefix, none⟩
      ⟨none, none, some "new-password", true⟩).2 rfl).1⟩

/-- C12, at a backend whose cache holds the client built from the password
`admin` and a Jenkins server that accepts that password only: an update of
the password to `wrong`, with `validate` true, persists the new password, yet
the probe is the `Init` of the cached client with the password `admin`, no
client is built from the new configuration, and the write reports success;
the client built afterwards from the stored configuration fails the same
probe. -/
theorem validate_probes_cached_client :
    cachedState.client = some ⟨"http://localhost:8080", "admin", "admin"⟩
    ∧ storedConfig (pathConfigWrite strictEnv cachedState ⟨.UpdateOperation, configPrefix, none⟩
        ⟨none, none, some "wrong", true⟩).2
      = some ⟨"admin", "wrong", "http://localhost:8080", false⟩
    ∧ (pathConfigWrite strictEnv cachedState ⟨.UpdateOperation, configPrefix, none⟩
        ⟨none, none, some "wrong", true⟩).2.log
      = cachedState.log ++ [.storageGet configPrefix, .storagePut configPrefix,
          .Init ⟨"http://localhost:8080", "admin", "admin"⟩]
    ∧ (pathConfigWrite strictEnv cachedState ⟨.UpdateOperation, configPrefix, none⟩
        ⟨none, none, some "wrong", true⟩).1 = .returned none none
    ∧ strictEnv.Init ⟨"http://localhost:8080", "admin", "wrong"⟩ = some "401 Unauthorized" := by
  decide

/-- C13: let `stored` be the configuration that the read of `config` returns.
When the reference definition has no record to persist, the write returns an
error and the storage is unchanged.  When it has the record `cfg`: if
`Storage.Put` fails the write returns that error and the storage is
unchanged; if it succeeds the storage afterwards is the storage before with
`cfg` at `config`, whatever the validation does, and when the probe `Init`
of the validation fails the write returns the error of the probe. -/
theorem pathConfigWrite_refines (env : Env) (w : State) (req : Request) (data : ConfigFieldData)
    (stored : Option jenkinsConfig) (hs : (getConfig env w).1 = .ok stored) :
    (configWriteSpec stored (decide (req.Operation = .CreateOperation)) data = none →
      (∃ e, (pathConfigWrite env w req data).1 = .returned none (some e))
        ∧ (pathConfigWrite env w req data).2.storage = w.storage)
    ∧ (∀ cfg, configWriteSpec stored (decide (req.Operation = .CreateOperation)) data
        = some cfg →
      (∀ e, env.putErr configPrefix = some e →
        (pathConfigWrite env w req data).1 = .returned none (some e)
          ∧ (pathConfigWrite env w req data).2.storage = w.storage)
      ∧ (env.putErr configPrefix = none →
        (pathConfigWrite env w req data).2.storage
            = (configPrefix, encodeConfig cfg)
              :: w.storage.filter (fun kv => kv.1 != configPrefix)
          ∧ storedConfig (pathConfigWrite env w req data).2 = some cfg
          ∧ (data.validate = true → ∀ c e,
              (getClient env (afterConfigPut w cfg)).1 = .ok c → env.Init c = some e →
              (pathConfigWrite env w req data).1
                = .returned (some (ErrorResponse e)) (some e)))) := by
  refine ⟨fun hspec => ?_, fun cfg hspec => ⟨fun e hp => ?_, fun hp => ?_⟩⟩
  · obtain ⟨e, he⟩ := pathConfigWrite_fail env w req data stored hs hspec
    rw [he]
    exact ⟨⟨e, rfl⟩, rfl⟩
  · rw [pathConfigWrite_put_error env w req data stored cfg e hs hspec hp]
    exact ⟨rfl, rfl⟩
  · have hst := (pathConfigWrite_persist_client env w req data stored cfg hs hspec hp).2
    refine ⟨hst, ?_, ?_⟩
    · have h2 := storedConfig_afterConfigPut w cfg
      unfold storedConfig at h2 ⊢
      rw [hst]
      exact h2
    · intro hv c e hc hi
      rw [pathConfigWrite_persist env w req data stored cfg hs hspec hp, hv]
      simp only [if_true]
      rw [getClient_eta env _ c hc]
      simp only [hi]

/-- C13 at the test configuration: an update that supplies the password only
keeps the username and the URL, and the record stays when the probe fails. -/
theorem pathConfigWrite_refines_witness :
    (getConfig strictEnv testState).1 = .ok (some ⟨"admin", "admin", "http://localhost:8080", false⟩)
    ∧ storedConfig (pathConfigWrite strictEnv testState ⟨.UpdateOperation, configPrefix, none⟩
        ⟨none, none, some "wrong", true⟩).2
      = some ⟨"admin", "wrong", "http://localhost:8080", false⟩
    ∧ (pathConfigWrite strictEnv testState ⟨.UpdateOperation, configPrefix, none⟩
        ⟨none, none, some "wrong", true⟩).1
      = .returned (some (ErrorResponse "401 Unauthorized")) (some "401 Unauthorized") :=
  ⟨by decide,
   (((pathConfigWrite_refines strictEnv testState ⟨.UpdateOperation, configPrefix, none⟩
      ⟨none, none, some "wrong", true⟩
      (some ⟨"admin", "admin", "http://localhost:8080", false⟩) (by decide)).2
      ⟨"admin", "wrong", "http://localhost:8080", false⟩ (by decide)).2 rfl).2.1,
   (((pathConfigWrite_refines strictEnv testState ⟨.UpdateOperation, configPrefix, none⟩
      ⟨none, none, some "wrong", true⟩
      (some ⟨"admin", "admin", "http://localhost:8080", false⟩) (by decide)).2
      ⟨"admin", "wrong", "http://localhost:8080", false⟩ (by decide)).2 rfl).2.2 rfl
      ⟨"http://localhost:8080", "admin", "wrong"⟩ "401 Unauthorized" (by decide) (by decide)⟩

/-! ## Reading the configuration -/

theorem getConfig_of_stored (env : Env) (w : State) (cfg : jenkinsConfig)
    (hg : env.getErr configPrefix = none) (hs : storedConfig w = some cfg) :
    (getConfig env w).1 = .ok (some cfg) := by
  unfold storedConfig at hs
  unfold getConfig storageGet
  rw [hg]
  simp only
  cases hl : List.lookup configPrefix w.storage with
  | none => rw [hl] at hs; simp at hs
  | some entry =>
    rw [hl] at hs
    simp only at hs ⊢
    cases hd : decodeConfig entry with
    | error e => rw [hd] at hs; simp [Except.toOption] at hs
    | ok cfg2 =>
      rw [hd] at hs
      simp only [Except.toOption, Option.some.injEq] at hs
      subst hs
      rfl

/-- C14: when the storage holds a configuration, `pathConfigRead` returns a
response whose data are exactly the entries `username` and `url` with the
stored values; so a state whose stored configuration differs in the password
only gets the same response. -/
theorem pathConfigRead_hides_password (env : Env) (w w2 : State) (cfg : jenkinsConfig)
    (p2 : String) (hg : env.getErr configPrefix = none)
    (h1 : storedConfig w = some cfg)
    (h2 : storedConfig w2 = some { cfg with Password := p2 }) :
    (pathConfigRead env w).1
        = .returned (some ⟨none, [("username", .str cfg.Username), ("url", .str cfg.URL)]⟩) none
      ∧ (pathConfigRead env w).1.data.map keys = some ["username", "url"]
      ∧ (pathConfigRead env w2).1 = (pathConfigRead env w).1 := by
  have r1 : (pathConfigRead env w).1
      = .returned (some ⟨none, [("username", .str cfg.Username), ("url", .str cfg.URL)]⟩)
          none := by
    unfold pathConfigRead
    rw [getConfig_eta env w _ (getConfig_of_stored env w cfg hg h1)]
  have r2 : (pathConfigRead env w2).1
      = .returned (some ⟨none, [("username", .str cfg.Username), ("url", .str cfg.URL)]⟩)
          none := by
    unfold pathConfigRead
    rw [getConfig_eta env w2 _ (getConfig_of_stored env w2 _ hg h2)]
  refine ⟨r1, ?_, ?_⟩
  · rw [r1]
    rfl
  · rw [r1, r2]

/-- C14 at the test configuration and at the same with another password. -/
theorem pathConfigRead_hides_password_witness :
    storedConfig testState = some ⟨"admin", "admin", "http://localhost:8080", false⟩
    ∧ (pathConfigRead testEnv testState).1
      = .returned (some ⟨none, [("username", .str "admin"),
          ("url", .str "http://localhost:8080")]⟩) none
    ∧ (pathConfigRead testEnv
        { testState with storage := [(configPrefix,
            encodeConfig ⟨"admin", "secret", "http://localhost:8080", false⟩)] }).1
      = (pathConfigRead testEnv testState).1 :=
  ⟨by decide,
   (pathConfigRead_hides_password testEnv testState
      { testState with storage := [(configPrefix,
          encodeConfig ⟨"admin", "secret", "http://localhost:8080", false⟩)] }
      ⟨"admin", "admin", "http://localhost:8080", false⟩ "secret" rfl (by decide) (by decide)).1,
   (pathConfigRead_hides_password testEnv testState
      { testState with storage := [(configPrefix,
          encodeConfig ⟨"admin", "secret", "http://localhost:8080", false⟩)] }
      ⟨"admin", "admin", "http://localhost:8080", false⟩ "secret" rfl (by decide) (by decide)).2.2⟩

/-- C15: when the storage returns no record at `config`, `pathConfigRead` does
not return: it aborts with the panic of the nil pointer dereference. -/
theorem pathConfigRead_no_config (env : Env) (w : State)
    (h : (storageGet env w configPrefix).1 = .ok none) :
    (pathConfigRead env w).1
      = .panicked "runtime error: invalid memory address or nil pointer dereference" := by
  have hg : (getConfig env w).1 = .ok none := by
    unfold getConfig
    rcases hsg : storageGet env w configPrefix with ⟨r, w1⟩
    rw [hsg] at h
    simp only at h
    subst h
    rfl
  unfold pathConfigRead
  rw [getConfig_eta env w _ hg]

/-- C15 at an empty storage. -/
theorem pathConfigRead_no_config_witness :
    (storageGet testEnv emptyState configPrefix).1 = .ok none
    ∧ (pathConfigRead testEnv emptyState).1
      = .panicked "runtime error: invalid memory address or nil pointer dereference" :=
  ⟨by decide, pathConfigRead_no_config testEnv emptyState (by decide)⟩

/-! ## The invariant of the user records -/

theorem userLive_append (env : Env) (name : String) (log : List Event) (ev : Event) :
    userLive env name (log ++ [ev]) = userLiveStep env name (userLive env name log) ev := by
  simp [userLive, List.foldl_append]

theorem KeepsUsers.refl (env : Env) (w : State) : KeepsUsers env w w :=
  ⟨fun _ => rfl, fun _ => rfl⟩

theorem KeepsUsers.trans {env : Env} {a b c : State} (h1 : KeepsUsers env a b)
    (h2 : KeepsUsers env b c) : KeepsUsers env a c :=
  ⟨fun n => (h2.1 n).trans (h1.1 n), fun n => (h2.2 n).trans (h1.2 n)⟩

theorem KeepsUsers.invariant {env : Env} {w w' : State} (h : KeepsUsers env w w')
    (hi : UsersInvariant env w) : UsersInvariant env w' := by
  intro name
  rw [h.1 name, h.2 name]
  exact hi name

theorem keeps_record (env : Env) (w : State) (ev : Event)
    (h : ∀ name b, userLiveStep env name b ev = b) : KeepsUsers env w (w.record ev) :=
  ⟨fun _ => rfl, fun name => by rw [record_log, userLive_append, h]⟩

theorem keeps_reset (env : Env) (w : State) : KeepsUsers env w (reset w) :=
  ⟨fun _ => rfl, fun _ => rfl⟩

theorem getUserPath_inj (a b : String) (h : getUserPath a = getUserPath b) : a = b := by
  have hd := congrArg String.data h
  simp only [getUserPath, String.data_append, List.append_cancel_left_eq] at hd
  exact String.ext hd

theorem getUserPath_ne_config (name : String) : getUserPath name ≠ configPrefix := by
  intro h
  have hd := congrArg String.data h
  simp [getUserPath, usersPrefix, configPrefix, String.data_append] at hd

theorem lookup_filter_ne {α : Type} (k k' : String) (l : List (String × α)) (h : k ≠ k') :
    List.lookup k (l.filter (fun kv => kv.1 != k')) = List.lookup k l := by
  induction l with
  | nil => rfl
  | cons a t ih =>
    rcases a with ⟨ak, av⟩
    by_cases h1 : ak = k'
    · subst h1
      have hk : (k == ak) = false := by
        rw [beq_eq_false_iff_ne]
        exact h
      simp [List.filter_cons, List.lookup, hk, ih]
    · by_cases h2 : k = ak
      · subst h2
        simp [List.filter_cons, h1, List.lookup]
      · have hk : (k == ak) = false := by
          rw [beq_eq_false_iff_ne]
          exact h2
        simp [List.filter_cons, h1, List.lookup, hk, ih]

theorem keeps_storageGet (env : Env) (w : State) (key : String) :
    KeepsUsers env w (storageGet env w key).2 := by
  rw [storageGet_state]
  exact keeps_record env w _ (fun _ _ => rfl)

theorem keeps_getConfig (env : Env) (w : State) : KeepsUsers env w (getConfig env w).2 := by
  rw [getConfig_state]
  exact keeps_record env w _ (fun _ _ => rfl)

theorem keeps_getClient (env : Env) (w : State) : KeepsUsers env w (getClient env w).2 := by
  unfold getClient
  cases w.client with
  | some c => exact KeepsUsers.refl env w
  | none =>
    simp only
    have hk := keeps_getConfig env w
    rcases hgc : getConfig env w with ⟨r, w1⟩
    rw [hgc] at hk
    simp only at hk
    cases r with
    | error e => exact hk
    | ok cfg =>
      simp only
      cases newClient _ with
      | error e => exact hk.trans ⟨fun _ => rfl, fun _ => rfl⟩
      | ok c =>
        refine hk.trans ⟨fun _ => rfl, fun name => ?_⟩
        exact (keeps_record env w1 (.CreateJenkins _ _ _) (fun _ _ => rfl)).2 name

/-- A write or a delete at a key that is no user path keeps the users. -/
theorem keeps_storagePut (env : Env) (w : State) (key : String) (v : JSONObject)
    (hkey : ∀ name, getUserPath name ≠ key) : KeepsUsers env w (storagePut env w key v).2 := by
  unfold storagePut
  cases env.putErr key with
  | some e => exact keeps_record env w _ (fun _ _ => rfl)
  | none =>
    refine ⟨fun name => ?_,
      fun name => (keeps_record env w (.storagePut key) (fun _ _ => rfl)).2 name⟩
    have hk : (getUserPath name == key) = false := by
      rw [beq_eq_false_iff_ne]
      exact hkey name
    simp only [List.lookup, hk]
    exact lookup_filter_ne _ _ _ (hkey name)

theorem keeps_storageDelete (env : Env) (w : State) (key : String)
    (hkey : ∀ name, getUserPath name ≠ key) : KeepsUsers env w (storageDelete env w key).2 := by
  unfold storageDelete
  cases env.deleteErr key with
  | some e => exact keeps_record env w _ (fun _ _ => rfl)
  | none =>
    refine ⟨fun name => ?_,
      fun name => (keeps_record env w (.storageDelete key) (fun _ _ => rfl)).2 name⟩
    exact lookup_filter_ne _ _ _ (hkey name)

/-- The invariant after a downstream user has been created and its record
written. -/
theorem inv_created (env : Env) (w w' : State) (c : jenkinsClient) (u p f e : String)
    (user : gojenkinsUser) (v : JSONObject) (hi : UsersInvariant env w)
    (hd : env.CreateUser c u p f e = .ok user)
    (hs : w'.storage = (getUserPath u, v) :: w.storage.filter (fun kv => kv.1 != getUserPath u))
    (hl : w'.log = (w.log ++ [.CreateUser c u p f e]) ++ [.storagePut (getUserPath u)]) :
    UsersInvariant env w' := by
  intro name
  rw [hs, hl, userLive_append, userLive_append]
  by_cases hn : u = name
  · subst hn
    simp [List.lookup, userLiveStep, hd]
  · have hne : getUserPath name ≠ getUserPath u := fun h => hn (getUserPath_inj _ _ h).symm
    have hk : (getUserPath name == getUserPath u) = false := by
      rw [beq_eq_false_iff_ne]
      exact hne
    simp only [List.lookup, hk, userLiveStep, hn, if_false]
    rw [lookup_filter_ne _ _ _ hne]
    exact hi name

/-- The invariant after a downstream user has been deleted and its record
removed. -/
theorem inv_deleted (env : Env) (w w' : State) (c : jenkinsClient) (u : String)
    (hi : UsersInvariant env w) (hd : env.DeleteUser c u = none)
    (hs : w'.storage = w.storage.filter (fun kv => kv.1 != getUserPath u))
    (hl : w'.log = (w.log ++ [.DeleteUser c u]) ++ [.storageDelete (getUserPath u)]) :
    UsersInvariant env w' := by
  intro name
  rw [hs, hl, userLive_append, userLive_append]
  by_cases hn : u = name
  · subst hn
    simp [lookup_filter_self, userLiveStep, hd]
  · have hne : getUserPath name ≠ getUserPath u := fun h => hn (getUserPath_inj _ _ h).symm
    simp only [userLiveStep, hn, if_false]
    rw [lookup_filter_ne _ _ _ hne]
    exact hi name

theorem keeps_createUser_error (env : Env) (w : State) (c : jenkinsClient) (u p f e : String)
    (err : Error) (hd : env.CreateUser c u p f e = .error err) :
    KeepsUsers env w (w.record (.CreateUser c u p f e)) := by
  refine keeps_record env w _ (fun name b => ?_)
  simp only [userLiveStep, hd]
  split <;> rfl

theorem keeps_deleteUser_error (env : Env) (w : State) (c : jenkinsClient) (u : String)
    (err : Error) (hd : env.DeleteUser c u = some err) :
    KeepsUsers env w (w.record (.DeleteUser c u)) := by
  refine keeps_record env w _ (fun name b => ?_)
  simp only [userLiveStep, hd]
  split <;> rfl

theorem keeps_pathUsersRead (env : Env) (w : State) (req : Request) :
    KeepsUsers env w (pathUsersRead env w req).2 := by
  unfold pathUsersRead getUserFromStorage
  simp only
  by_cases hu : parseUsernameFromPath req.Path = ""
  · simp only [hu, if_true]
    exact KeepsUsers.refl env w
  · simp only [hu, if_false]
    have hk := keeps_storageGet env w (getUserPath (parseUsernameFromPath req.Path))
    rcases hsg : storageGet env w (getUserPath (parseUsernameFromPath req.Path)) with ⟨r, w1⟩
    rw [hsg] at hk
    cases r with
    | error e => exact hk
    | ok o =>
      cases o with
      | none => exact hk
      | some entry =>
        simp only
        cases decodeUser entry <;> exact hk

theorem keeps_pathTokensRead (env : Env) (w : State) (req : Request) (d : TokensFieldData) :
    KeepsUsers env w (pathTokensRead env w req d).2 := by
  unfold pathTokensRead createUserToken jenkinsBackend.createToken createToken
  simp only
  have hk := keeps_getClient env w
  rcases hg : getClient env w with ⟨r, w1⟩
  rw [hg] at hk
  cases r with
  | error e => exact hk
  | ok c =>
    simp only
    cases env.GenerateAPIToken c (TrimPrefix req.Path (tokensPrefix ++ "/")) <;>
      exact hk.trans (keeps_record env w1 (.GenerateAPIToken c _) (fun _ _ => rfl))

theorem keeps_tokenRevoke (env : Env) (w : State) (secret : Secret) :
    KeepsUsers env w (tokenRevoke env w secret).2 := by
  unfold tokenRevoke deleteToken
  have hk := keeps_getClient env w
  rcases hg : getClient env w with ⟨r, w1⟩
  rw [hg] at hk
  cases r with
  | error e => exact hk
  | ok c =>
    simp only
    cases secret.InternalData.lookup "token_id" with
    | none =>
      simp only
      cases env.RevokeAPIToken c "" <;>
        exact hk.trans (keeps_record env w1 (.RevokeAPIToken c _) (fun _ _ => rfl))
    | some v =>
      cases v with
      | str s =>
        simp only
        cases env.RevokeAPIToken c s <;>
          exact hk.trans (keeps_record env w1 (.RevokeAPIToken c _) (fun _ _ => rfl))
      | _ => exact hk

theorem userRenew_state (env : Env) (w : State) (secret : Secret) :
    (userRenew env w secret).2.2 = w := by
  unfold userRenew
  cases secret.InternalData.lookup "ttl" with
  | none => rfl
  | some a =>
    cases secret.InternalData.lookup "max_ttl" with
    | none => rfl
    | some b => cases a <;> cases b <;> rfl

theorem keeps_pathConfigRead (env : Env) (w : State) :
    KeepsUsers env w (pathConfigRead env w).2 := by
  unfold pathConfigRead
  have hk := keeps_getConfig env w
  rcases hgc : getConfig env w with ⟨r, w1⟩
  rw [hgc] at hk
  cases r with
  | error e => exact hk
  | ok o => cases o <;> exact hk

theorem keeps_pathConfigDelete (env : Env) (w : State) :
    KeepsUsers env w (pathConfigDelete env w).2 := by
  unfold pathConfigDelete
  have hk := keeps_storageDelete env w configPrefix getUserPath_ne_config
  rcases hsd : storageDelete env w configPrefix with ⟨r, w1⟩
  rw [hsd] at hk
  cases r with
  | none => exact hk.trans (keeps_reset env w1)
  | some e => exact hk

theorem keeps_afterConfigPut (env : Env) (w : State) (cfg : jenkinsConfig) :
    KeepsUsers env w (afterConfigPut w cfg) := by
  refine ⟨fun name => ?_, fun name => ?_⟩
  · have hk : (getUserPath name == configPrefix) = false := by
      rw [beq_eq_false_iff_ne]
      exact getUserPath_ne_config name
    simp only [afterConfigPut, List.lookup, hk]
    exact lookup_filter_ne _ _ _ (getUserPath_ne_config name)
  · have h1 := (keeps_record env w (.storageGet configPrefix) (fun _ _ => rfl)).2 name
    have h2 := (keeps_record env (w.record (.storageGet configPrefix))
      (.storagePut configPrefix) (fun _ _ => rfl)).2 name
    simp only [record_log, List.append_assoc, List.singleton_append] at h1 h2
    simp only [afterConfigPut]
    rw [h2, h1]

theorem keeps_pathConfigWrite (env : Env) (w : State) (req : Request) (data : ConfigFieldData) :
    KeepsUsers env w (pathConfigWrite env w req data).2 := by
  have hget := keeps_record env w (.storageGet configPrefix) (fun _ _ => rfl)
  cases hgc : (getConfig env w).1 with
  | error e =>
    rw [pathConfigWrite_read_error env w req data e hgc]
    exact hget
  | ok stored =>
    cases hspec : configWriteSpec stored (decide (req.Operation = .CreateOperation)) data with
    | none =>
      obtain ⟨e, he⟩ := pathConfigWrite_fail env w req data stored hgc hspec
      rw [he]
      exact hget
    | some cfg =>
      cases hp : env.putErr configPrefix with
      | some e =>
        rw [pathConfigWrite_put_error env w req data stored cfg e hgc hspec hp]
        exact hget.trans (keeps_record env _ (.storagePut configPrefix) (fun _ _ => rfl))
      | none =>
        rw [pathConfigWrite_persist env w req data stored cfg hgc hspec hp]
        have hput := keeps_afterConfigPut env w cfg
        cases data.validate with
        | false => exact hput.trans (keeps_reset env _)
        | true =>
          simp only [if_true]
          have hk := keeps_getClient env (afterConfigPut w cfg)
          rcases hg : getClient env (afterConfigPut w cfg) with ⟨r, w3⟩
          rw [hg] at hk
          cases r with
          | error e => exact hput.trans hk
          | ok c =>
            simp only
            cases env.Init c <;>
              exact (hput.trans hk).trans
                ((keeps_record env w3 (.Init c) (fun _ _ => rfl)).trans (keeps_reset env _))

theorem inv_createJenkinsUser (env : Env) (w : State) (cfg : jenkinsUser)
    (hput : ∀ n, env.putErr (getUserPath n) = none) (hi : UsersInvariant env w) :
    UsersInvariant env (createJenkinsUser env w cfg).2 := by
  unfold createJenkinsUser jenkinsBackend.createUser createUser
  have hk := keeps_getClient env w
  rcases hg : getClient env w with ⟨r, w1⟩
  rw [hg] at hk
  cases r with
  | error e => exact hk.invariant hi
  | ok c =>
    simp only
    cases hd : env.CreateUser c cfg.Username cfg.Password cfg.Fullname cfg.Email with
    | error e =>
      exact (hk.trans (keeps_createUser_error env w1 c _ _ _ _ e hd)).invariant hi
    | ok user =>
      simp only [StorageEntryJSON, storagePut, hput]
      exact inv_created env w1 _ c _ _ _ _ user _ (hk.invariant hi) hd rfl rfl

theorem inv_pathUsersWrite (env : Env) (w : State) (req : Request) (d : UsersFieldData)
    (hput : ∀ n, env.putErr (getUserPath n) = none) (hi : UsersInvariant env w) :
    UsersInvariant env (pathUsersWrite env w req d).2 := by
  unfold pathUsersWrite pathUsersExistenceCheck
  have hk := keeps_storageGet env w req.Path
  rcases hsg : storageGet env w req.Path with ⟨r, w1⟩
  rw [hsg] at hk
  cases r with
  | error e => exact hk.invariant hi
  | ok o =>
    cases o with
    | some entry => exact hk.invariant hi
    | none => exact inv_createJenkinsUser env w1 _ hput (hk.invariant hi)

theorem inv_deleteUser (env : Env) (w1 : State) (c : jenkinsClient) (u : String)
    (hdel : ∀ n, env.deleteErr (getUserPath n) = none) (hi : UsersInvariant env w1) :
    UsersInvariant env
      (match deleteUser env w1 c u with
        | (some _, w2) => w2
        | (none, w2) => (storageDelete env w2 (getUserPath u)).2) := by
  unfold deleteUser
  cases hd : env.DeleteUser c u with
  | some e => exact (keeps_deleteUser_error env w1 c u e hd).invariant hi
  | none =>
    simp only [storageDelete, hdel]
    exact inv_deleted env w1 _ c u hi hd rfl rfl

theorem inv_pathUsersDelete (env : Env) (w : State) (req : Request)
    (hdel : ∀ n, env.deleteErr (getUserPath n) = none) (hi : UsersInvariant env w) :
    UsersInvariant env (pathUsersDelete env w req).2 := by
  unfold pathUsersDelete
  simp only
  have hk := keeps_getClient env w
  rcases hg : getClient env w with ⟨r, w1⟩
  rw [hg] at hk
  cases r with
  | error e => exact hk.invariant hi
  | ok c =>
    have h := inv_deleteUser env w1 c (parseUsernameFromPath req.Path) hdel (hk.invariant hi)
    simp only
    rcases hdu : deleteUser env w1 c (parseUsernameFromPath req.Path) with ⟨r2, w2⟩
    rw [hdu] at h
    cases r2 with
    | some e => exact h
    | none =>
      simp only at h ⊢
      rcases hsd : storageDelete env w2 (getUserPath (parseUsernameFromPath req.Path))
        with ⟨r3, w3⟩
      rw [hsd] at h
      cases r3 <;> exact h

theorem inv_userRevoke (env : Env) (w : State) (secret : Secret)
    (hdel : ∀ n, env.deleteErr (getUserPath n) = none) (hi : UsersInvariant env w) :
    UsersInvariant env (userRevoke env w secret).2 := by
  unfold userRevoke
  have hk := keeps_getClient env w
  rcases hg : getClient env w with ⟨r, w1⟩
  rw [hg] at hk
  cases r with
  | error e => exact hk.invariant hi
  | ok c =>
    have key : ∀ u, UsersInvariant env
        (match deleteUser env w1 c u with
          | (some e, w2) => (Outcome.returned none (some ("error revoking user: " ++ e)), w2)
          | (none, w2) =>
            match storageDelete env w2 (getUserPath u) with
            | (some e, w3) =>
              (Outcome.returned none (some ("error remove user from storage: " ++ e)), w3)
            | (none, w3) => (Outcome.returned none none, w3)).2 := by
      intro u
      have h := inv_deleteUser env w1 c u hdel (hk.invariant hi)
      rcases hdu : deleteUser env w1 c u with ⟨r2, w2⟩
      rw [hdu] at h
      cases r2 with
      | some e => exact h
      | none =>
        simp only at h ⊢
        rcases hsd : storageDelete env w2 (getUserPath u) with ⟨r3, w3⟩
        rw [hsd] at h
        cases r3 <;> exact h
    simp only
    cases secret.InternalData.lookup "username" with
    | none => exact key ""
    | some v =>
      cases v with
      | str s => exact key s
      | _ => exact hk.invariant hi

/-- C16, for every outcome of the storage and downstream calls, fails at a
user create whose downstream `CreateUser` succeeds and whose `Storage.Put`
fails: the invariant holds before the create and not after it, the
downstream user `alice` existing with no record at `users/alice`. -/
theorem users_invariant_broken :
    UsersInvariant sealedEnv testState
    ∧ ¬ UsersInvariant sealedEnv
        ((Call.usersWrite ⟨.CreateOperation, getUserPath "alice", none⟩
          ⟨"p", "Alice A", "a@x.com", 0, 0⟩).run sealedEnv testState)
    ∧ userLive sealedEnv "alice"
        ((Call.usersWrite ⟨.CreateOperation, getUserPath "alice", none⟩
          ⟨"p", "Alice A", "a@x.com", 0, 0⟩).run sealedEnv testState).log = true
    ∧ ((Call.usersWrite ⟨.CreateOperation, getUserPath "alice", none⟩
          ⟨"p", "Alice A", "a@x.com", 0, 0⟩).run sealedEnv testState).storage.lookup
        (getUserPath "alice") = none := by
  refine ⟨?_, ?_, by decide, by decide⟩
  · intro name
    have hk : (getUserPath name == "config") = false := by
      rw [beq_eq_false_iff_ne]
      exact getUserPath_ne_config name
    simp [testState, List.lookup, hk, userLive]
  · intro h
    have h1 := h "alice"
    revert h1
    decide

/-- C16 as amended: when the storage refuses no write and no delete of a user
record, every operation of the backend (user create, read, delete, lease
revoke and renew, token create, revoke and renew, configuration read, write
and delete) preserves the invariant of the user records, whatever the
downstream calls and the other storage calls answer. -/
theorem users_invariant_preserved (env : Env) (w : State) (call : Call)
    (hput : ∀ n, env.putErr (getUserPath n) = none)
    (hdel : ∀ n, env.deleteErr (getUserPath n) = none)
    (hi : UsersInvariant env w) :
    UsersInvariant env (call.run env w) := by
  cases call with
  | usersWrite req d => exact inv_pathUsersWrite env w req d hput hi
  | usersRead req => exact (keeps_pathUsersRead env w req).invariant hi
  | usersDelete req => exact inv_pathUsersDelete env w req hdel hi
  | userRevoke secret => exact inv_userRevoke env w secret hdel hi
  | userRenew secret =>
    show UsersInvariant env (userRenew env w secret).2.2
    rw [userRenew_state]
    exact hi
  | tokensRead req d => exact (keeps_pathTokensRead env w req d).invariant hi
  | tokenRevoke secret => exact (keeps_tokenRevoke env w secret).invariant hi
  | tokenRenew secret =>
    show UsersInvariant env (userRenew env w secret).2.2
    rw [userRenew_state]
    exact hi
  | configRead => exact (keeps_pathConfigRead env w).invariant hi
  | configWrite req data => exact (keeps_pathConfigWrite env w req data).invariant hi
  | configDelete => exact (keeps_pathConfigDelete env w).invariant hi

/-- C16 as amended, at the create and the delete of the test user: the
invariant holds after the create and after the delete that follows. -/
theorem users_invariant_preserved_witness :
    (∀ n, testEnv.putErr (getUserPath n) = none)
    ∧ UsersInvariant testEnv
        ((Call.usersDelete ⟨.DeleteOperation, getUserPath "testUsername", none⟩).run testEnv
          ((Call.usersWrite ⟨.CreateOperation, getUserPath "testUsername", none⟩
            ⟨"testPassword", "testFullname", "testEmail@testemail.com", 0, 0⟩).run testEnv
            testState)) :=
  ⟨fun _ => rfl,
   users_invariant_preserved testEnv _ _ (fun _ => rfl) (fun _ => rfl)
    (users_invariant_preserved testEnv testState _ (fun _ => rfl) (fun _ => rfl)
      (by
        intro name
        have hk : (getUserPath name == "config") = false := by
          rw [beq_eq_false_iff_ne]
          exact getUserPath_ne_config name
        simp [testState, List.lookup, hk, userLive]))⟩

/-! ## Concurrent callers of `getClient` -/

/-- The method `getClient` is its shared section followed, when the cache is
empty, by its exclusive section. -/
theorem getClient_sections (env : Env) (w : State) :
    getClient env w
      = match getClientShared w with
        | some c => (.ok c, w)
        | none => getClientExclusive env w := by
  unfold getClient getClientShared getClientExclusive
  cases w.client <;> rfl

theorem storedConfig_congr (w w' : State) (h : w'.storage = w.storage) :
    storedConfig w' = storedConfig w := by
  unfold storedConfig
  rw [h]

theorem BuiltFrom.unique {w : State} {c c' : jenkinsClient} (h : BuiltFrom w c)
    (h' : BuiltFrom w c') : c = c' := by
  obtain ⟨cfg, h1, h2⟩ := h
  obtain ⟨cfg', h1', h2'⟩ := h'
  rw [h1] at h1'
  rw [Option.some.injEq] at h1'
  subst h1'
  rw [h2] at h2'
  exact Except.ok.inj h2'

theorem constructions_record (w : State) (ev : Event) :
    (w.record ev).constructions = w.constructions + (if ev.isConstruction then 1 else 0) := by
  unfold State.constructions
  rw [record_log, List.filter_append]
  cases h : ev.isConstruction <;> simp [List.filter_cons, h]

theorem storedConfig_of_getConfig (env : Env) (w : State) (cfg : jenkinsConfig)
    (h : (getConfig env w).1 = .ok (some cfg)) : storedConfig w = some cfg := by
  unfold getConfig storageGet at h
  unfold storedConfig
  cases hg : env.getErr configPrefix with
  | some e => rw [hg] at h; cases h
  | none =>
    rw [hg] at h
    simp only at h
    cases hl : List.lookup configPrefix w.storage with
    | none => rw [hl] at h; cases h
    | some entry =>
      rw [hl] at h
      simp only at h ⊢
      cases hd : decodeConfig entry with
      | error e => rw [hd] at h; cases h
      | ok cfg2 =>
        rw [hd] at h
        simp only [Except.ok.injEq, Option.some.injEq] at h
        subst h
        rfl

theorem constructions_record_get (w : State) (key : String) :
    (w.record (.storageGet key)).constructions = w.constructions := by
  rw [constructions_record]
  rfl

/-- What the exclusive section does: the storage stays, a client it returns
is built from the stored configuration and is the one cached, and at most one
client is constructed. -/
theorem getClientExclusive_spec (env : Env) (w : State) :
    (getClientExclusive env w).2.storage = w.storage
      ∧ (∀ c, (getClientExclusive env w).1 = .ok c →
          BuiltFrom w c ∧ (getClientExclusive env w).2.client = some c)
      ∧ (getClientExclusive env w).2.constructions ≤ w.constructions + 1 := by
  have hs := getConfig_state env w
  unfold getClientExclusive
  rcases hgc : getConfig env w with ⟨r, w1⟩
  have hv : (getConfig env w).1 = r := by rw [hgc]
  rw [hgc] at hs
  simp only at hs
  subst hs
  cases r with
  | error e =>
    refine ⟨rfl, (fun c h => by cases h), ?_⟩
    simp only
    rw [constructions_record_get]
    omega
  | ok o =>
    simp only
    cases hn : newClient (o.getD ⟨"", "", "", false⟩) with
    | error e =>
      refine ⟨rfl, (fun c h => by cases h), ?_⟩
      show (w.record (.storageGet configPrefix)).constructions ≤ _
      rw [constructions_record_get]
      omega
    | ok c0 =>
      refine ⟨rfl, (fun c h => ?_), ?_⟩
      · simp only [Except.ok.injEq] at h
        subst h
        refine ⟨?_, rfl⟩
        cases o with
        | none => cases hn
        | some cfg => exact ⟨cfg, storedConfig_of_getConfig env w cfg hv, hn⟩
      · show ((w.record (.storageGet configPrefix)).record
            (.CreateJenkins _ _ _)).constructions ≤ _
        rw [constructions_record, constructions_record_get]
        simp [Event.isConstruction]

/-- An exclusive section that fails leaves the cache empty or as it was. -/
theorem getClientExclusive_error (env : Env) (w : State) (e : Error)
    (h : (getClientExclusive env w).1 = .error e) :
    (getClientExclusive env w).2.client = none
      ∨ (getClientExclusive env w).2.client = w.client := by
  have hs := getConfig_state env w
  unfold getClientExclusive at h ⊢
  rcases hgc : getConfig env w with ⟨r, w1⟩
  rw [hgc] at hs h
  simp only at hs
  subst hs
  cases r with
  | error e2 => exact Or.inr rfl
  | ok o =>
    simp only at h ⊢
    cases hn : newClient (o.getD ⟨"", "", "", false⟩) with
    | error e2 => exact Or.inl rfl
    | ok c0 =>
      rw [hn] at h
      cases h

theorem pendingCallers_set (cs : List Caller) (i : Nat) (old new : Caller)
    (h : cs[i]? = some old) :
    pendingCallers (cs.set i new) + old.pending = pendingCallers cs + new.pending := by
  induction cs generalizing i with
  | nil => simp at h
  | cons a t ih =>
    cases i with
    | zero =>
      simp only [List.getElem?_cons_zero, Option.some.injEq] at h
      subst h
      simp only [List.set_cons_zero, pendingCallers]
      omega
    | succ j =>
      simp only [List.getElem?_cons_succ] at h
      have := ih j h
      simp only [List.set_cons_succ, pendingCallers]
      omega

theorem pendingCallers_replicate (n : Nat) :
    pendingCallers (List.replicate n Caller.start) = n := by
  induction n with
  | zero => rfl
  | succ k ih =>
    simp only [List.replicate_succ, pendingCallers, ih, Caller.pending]
    omega

/-- One step of a run keeps: the storage, that the cached client and every
client returned so far are built from the stored configuration, and the bound
on the constructions. -/
theorem stepAt_invariant (env : Env) (w0 : State) (n : Nat) (run : State × List Caller)
    (i : Nat)
    (h : run.1.storage = w0.storage
      ∧ (∀ c, run.1.client = some c → BuiltFrom w0 c)
      ∧ (∀ r ∈ run.2, ∀ c, r = Caller.done (.ok c) → BuiltFrom w0 c)
      ∧ run.1.constructions + pendingCallers run.2 ≤ w0.constructions + n) :
    (stepAt env run i).1.storage = w0.storage
      ∧ (∀ c, (stepAt env run i).1.client = some c → BuiltFrom w0 c)
      ∧ (∀ r ∈ (stepAt env run i).2, ∀ c, r = Caller.done (.ok c) → BuiltFrom w0 c)
      ∧ (stepAt env run i).1.constructions + pendingCallers (stepAt env run i).2
        ≤ w0.constructions + n := by
  obtain ⟨h1, h2, h3, h4⟩ := h
  unfold stepAt
  cases hget : run.2[i]? with
  | none => exact ⟨h1, h2, h3, h4⟩
  | some caller =>
    simp only
    cases caller with
    | start =>
      unfold Caller.step getClientShared
      cases hc : run.1.client with
      | some c =>
        have hp := pendingCallers_set run.2 i _ (Caller.done (.ok c)) hget
        simp only [Caller.pending] at hp
        refine ⟨h1, h2, ?_, ?_⟩
        · intro r hr c' hrc
          rcases List.mem_or_eq_of_mem_set hr with hm | he
          · exact h3 r hm c' hrc
          · rw [he] at hrc
            simp only [Caller.done.injEq, Except.ok.injEq] at hrc
            subst hrc
            exact h2 c hc
        · simp only
          omega
      | none =>
        have hp := pendingCallers_set run.2 i _ Caller.waiting hget
        simp only [Caller.pending] at hp
        refine ⟨h1, h2, ?_, ?_⟩
        · intro r hr c' hrc
          rcases List.mem_or_eq_of_mem_set hr with hm | he
          · exact h3 r hm c' hrc
          · rw [he] at hrc
            cases hrc
        · simp only
          omega
    | waiting =>
      unfold Caller.step
      simp only
      obtain ⟨e1, e2, e3⟩ := getClientExclusive_spec env run.1
      have hcfg : storedConfig run.1 = storedConfig w0 := storedConfig_congr w0 run.1 h1
      have hb : ∀ c, BuiltFrom run.1 c → BuiltFrom w0 c := by
        rintro c ⟨cfg, hc1, hc2⟩
        exact ⟨cfg, by rw [← hcfg]; exact hc1, hc2⟩
      have hp := pendingCallers_set run.2 i _
        (Caller.done (getClientExclusive env run.1).1) hget
      simp only [Caller.pending] at hp
      refine ⟨e1.trans h1, ?_, ?_, ?_⟩
      · intro c hc
        cases hr : (getClientExclusive env run.1).1 with
        | ok c0 =>
          obtain ⟨hb0, hcl⟩ := e2 c0 hr
          rw [hcl] at hc
          simp only [Option.some.injEq] at hc
          subst hc
          exact hb _ hb0
        | error e =>
          rcases getClientExclusive_error env run.1 e hr with hn | hsame
          · rw [hn] at hc
            cases hc
          · rw [hsame] at hc
            exact h2 c hc
      · intro r hr c' hrc
        rcases List.mem_or_eq_of_mem_set hr with hm | he
        · exact h3 r hm c' hrc
        · rw [he] at hrc
          simp only [Caller.done.injEq] at hrc
          exact hb _ (e2 c' hrc).1
      · omega
    | done r0 =>
      unfold Caller.step
      simp only
      have hp := pendingCallers_set run.2 i _ (Caller.done r0) hget
      refine ⟨h1, h2, ?_, ?_⟩
      · intro r hr c' hrc
        rcases List.mem_or_eq_of_mem_set hr with hm | he
        · exact h3 r hm c' hrc
        · exact h3 _ (List.getElem?_mem hget) c' (by rw [← he]; exact hrc)
      · omega

/-- With a client in the cache, one step of a run leaves the state as it was
and the callers at the start or returned with that client. -/
theorem stepAt_filled (env : Env) (w0 : State) (c0 : jenkinsClient)
    (run : State × List Caller) (i : Nat) (hc : w0.client = some c0)
    (h : run.1 = w0 ∧ ∀ r ∈ run.2, r = Caller.start ∨ r = Caller.done (.ok c0)) :
    (stepAt env run i).1 = w0
      ∧ ∀ r ∈ (stepAt env run i).2, r = Caller.start ∨ r = Caller.done (.ok c0) := by
  obtain ⟨h1, h2⟩ := h
  unfold stepAt
  cases hget : run.2[i]? with
  | none => exact ⟨h1, h2⟩
  | some caller =>
    simp only
    rcases h2 caller (List.getElem?_mem hget) with hs | hd
    · subst hs
      unfold Caller.step getClientShared
      rw [h1, hc]
      refine ⟨rfl, fun r hr => ?_⟩
      rcases List.mem_or_eq_of_mem_set hr with hm | he
      · exact h2 r hm
      · exact Or.inr he
    · subst hd
      unfold Caller.step
      refine ⟨h1, fun r hr => ?_⟩
      rcases List.mem_or_eq_of_mem_set hr with hm | he
      · exact h2 r hm
      · exact Or.inr he

/-- C17, as stated, fails at two callers that both arrive while the cache is
empty: when both run the shared section before either runs the exclusive
section, each constructs a client, so two clients are constructed; when the
first caller returns before the second arrives, one client is constructed. -/
theorem getClient_constructed_twice :
    testState.client = none
    ∧ (runCallers testEnv testState 2 [0, 1, 0, 1]).1.constructions = 2
    ∧ (runCallers testEnv testState 2 [0, 1, 0, 1]).1.log
      = [.storageGet configPrefix,
         .CreateJenkins "http://localhost:8080" "admin" "admin",
         .storageGet configPrefix,
         .CreateJenkins "http://localhost:8080" "admin" "admin"]
    ∧ (runCallers testEnv testState 2 [0, 1, 0, 1]).2
      = [.done (.ok ⟨"http://localhost:8080", "admin", "admin"⟩),
         .done (.ok ⟨"http://localhost:8080", "admin", "admin"⟩)]
    ∧ (runCallers testEnv testState 2 [0, 0, 1]).1.constructions = 1 := by
  decide

/-- C17 as amended: in every run of `n` concurrent callers of `getClient`,
under every schedule, from a state whose cached client, if any, is the one
built from the stored configuration: every client returned is the one built
from the stored configuration, so all callers that return a client return
equal clients; at most one client is constructed per caller; the storage is
unchanged; when the cache holds a client at the start, nothing is
constructed, the state stays as it was and every caller that has run returns
the cached client; and a caller whose shared section finds a client in the
cache returns it and leaves the state as it was. -/
theorem runCallers_amended (env : Env) (w0 : State) (n : Nat) (schedule : List Nat)
    (hcache : ∀ c, w0.client = some c → BuiltFrom w0 c) :
    (∀ r ∈ (runCallers env w0 n schedule).2, ∀ c, r = Caller.done (.ok c) → BuiltFrom w0 c)
    ∧ (∀ c c', Caller.done (.ok c) ∈ (runCallers env w0 n schedule).2 →
        Caller.done (.ok c') ∈ (runCallers env w0 n schedule).2 → c = c')
    ∧ (runCallers env w0 n schedule).1.constructions ≤ w0.constructions + n
    ∧ (runCallers env w0 n schedule).1.storage = w0.storage
    ∧ (∀ c0, w0.client = some c0 →
        (runCallers env w0 n schedule).1 = w0
        ∧ ∀ r ∈ (runCallers env w0 n schedule).2,
            r = Caller.start ∨ r = Caller.done (.ok c0))
    ∧ (∀ (w : State) (c : jenkinsClient), w.client = some c →
        Caller.step env w Caller.start = (Caller.done (.ok c), w)) := by
  have main : ∀ (sched : List Nat) (run : State × List Caller),
      (run.1.storage = w0.storage
        ∧ (∀ c, run.1.client = some c → BuiltFrom w0 c)
        ∧ (∀ r ∈ run.2, ∀ c, r = Caller.done (.ok c) → BuiltFrom w0 c)
        ∧ run.1.constructions + pendingCallers run.2 ≤ w0.constructions + n) →
      ((sched.foldl (stepAt env) run).1.storage = w0.storage
        ∧ (∀ c, (sched.foldl (stepAt env) run).1.client = some c → BuiltFrom w0 c)
        ∧ (∀ r ∈ (sched.foldl (stepAt env) run).2, ∀ c,
            r = Caller.done (.ok c) → BuiltFrom w0 c)
        ∧ (sched.foldl (stepAt env) run).1.constructions
            + pendingCallers (sched.foldl (stepAt env) run).2 ≤ w0.constructions + n) := by
    intro sched
    induction sched with
    | nil => exact fun run h => h
    | cons i t ih =>
      intro run h
      rw [List.foldl_cons]
      exact ih _ (stepAt_invariant env w0 n run i h)
  have filled : ∀ c0, w0.client = some c0 → ∀ (sched : List Nat) (run : State × List Caller),
      (run.1 = w0 ∧ ∀ r ∈ run.2, r = Caller.start ∨ r = Caller.done (.ok c0)) →
      ((sched.foldl (stepAt env) run).1 = w0
        ∧ ∀ r ∈ (sched.foldl (stepAt env) run).2,
            r = Caller.start ∨ r = Caller.done (.ok c0)) := by
    intro c0 hc sched
    induction sched with
    | nil => exact fun run h => h
    | cons i t ih =>
      intro run h
      rw [List.foldl_cons]
      exact ih _ (stepAt_filled env w0 c0 run i hc h)
  have hinit : (w0, List.replicate n Caller.start).1.storage = w0.storage
      ∧ (∀ c, (w0, List.replicate n Caller.start).1.client = some c → BuiltFrom w0 c)
      ∧ (∀ r ∈ (w0, List.replicate n Caller.start).2, ∀ c,
          r = Caller.done (.ok c) → BuiltFrom w0 c)
      ∧ (w0, List.replicate n Caller.start).1.constructions
          + pendingCallers (w0, List.replicate n Caller.start).2 ≤ w0.constructions + n := by
    refine ⟨rfl, hcache, ?_, ?_⟩
    · intro r hr c hrc
      rw [(List.mem_replicate.1 hr).2] at hrc
      cases hrc
    · simp only [pendingCallers_replicate]
      omega
  obtain ⟨m1, -, m3, m4⟩ := main schedule _ hinit
  refine ⟨m3, ?_, ?_, m1, ?_, ?_⟩
  · intro c c' hc hc'
    exact (m3 _ hc c rfl).unique (m3 _ hc' c' rfl)
  · unfold runCallers
    omega
  · intro c0 hc
    refine filled c0 hc schedule _ ⟨rfl, ?_⟩
    intro r hr
    exact Or.inl (List.mem_replicate.1 hr).2
  · intro w c hc
    unfold Caller.step getClientShared
    rw [hc]

/-- C17 as amended, at the two callers of the test configuration that both
find the cache empty: both return the client built from the stored
configuration and at most two clients are constructed. -/
theorem runCallers_amended_witness :
    (∀ c, testState.client = some c → BuiltFrom testState c)
    ∧ (∀ c c', Caller.done (.ok c) ∈ (runCallers testEnv testState 2 [0, 1, 0, 1]).2 →
        Caller.done (.ok c') ∈ (runCallers testEnv testState 2 [0, 1, 0, 1]).2 → c = c')
    ∧ (runCallers testEnv testState 2 [0, 1, 0, 1]).1.constructions
        ≤ testState.constructions + 2 :=
  ⟨(fun _ h => by cases h),
   (runCallers_amended testEnv testState 2 [0, 1, 0, 1] (fun _ h => by cases h)).2.1,
   (runCallers_amended testEnv testState 2 [0, 1, 0, 1] (fun _ h => by cases h)).2.2.1⟩

end JenkinsSecrets
